import Mathlib

/-!
Verification development for the multi-agent orchestration service.

The definitions below are a shallow embedding of the supervisor agent
(`src/agents/supervisor-agent/src/agent.py`), the legacy graph router
(`src/agents/supervisor-agent/src/supervir_agent_graph.py`) and the
DynamoDB checkpoint saver
(`src/agents/personalization-agent/src/dynamodb_session_saver.py`).
Outbound LLM calls (the decision oracle and the synthesis call) and
specialist HTTP calls are modelled as explicit function parameters
returning `Except`, mirroring the try/except structure of the source.
-/

namespace MultiAgent

/-- Python truthiness of an `Optional[str]`: `None` and `""` are falsy. -/
def optStrTruthy : Option String → Bool
  | none => false
  | some s => !(s == "")

/-- Python substring test `pat in s` (used for `"cust" in message.lower()`). -/
def containsSub (s pat : String) : Bool :=
  decide (pat.toList <:+: s.toList)

/-- Embedding of the `SupervisorDecision` pydantic model
(`structured_models.py`), restricted to the fields the supervisor logic
reads or writes. -/
structure SupervisorDecision where
  primary_intent : String
  can_respond_directly : Bool
  direct_response : Option String
  selected_agents : List String
  execution_order : List String
  customer_id_mentioned : Bool
  reasoning : String
deriving Repr, DecidableEq

/-- The fixed enumerated set of specialist identifiers
(`valid_agents` in `_make_supervisor_decision`). -/
def validAgents : List String :=
  ["order_management", "product_recommendation", "troubleshooting", "personalization"]

/-- The validation and clean-up block of `_make_supervisor_decision`
(`agent.py` lines 949-970): an inconsistent direct response falls back to
agent routing, identifiers outside the fixed set are discarded, the list
is truncated to 3, and `execution_order` is made to match. -/
def validateDecision (d : SupervisorDecision) : SupervisorDecision :=
  let d1 :=
    if d.can_respond_directly && !(optStrTruthy d.direct_response) then
      { d with can_respond_directly := false, selected_agents := ["order_management"] }
    else d
  let sel := (d1.selected_agents.filter (fun a => validAgents.contains a)).take 3
  { d1 with selected_agents := sel, execution_order := sel }

/-- The fallback `SupervisorDecision` built when the oracle call raises
(`agent.py` lines 973-988). -/
def fallbackDecision (customer_message : String) : SupervisorDecision :=
  { primary_intent := "general"
    can_respond_directly := false
    direct_response := none
    selected_agents := ["order_management"]
    execution_order := ["order_management"]
    customer_id_mentioned := containsSub customer_message.toLower "cust"
    reasoning := "Fallback decision due to error in analysis" }

/-- `_make_supervisor_decision`: the oracle call is modelled as an
`Except Unit SupervisorDecision` value; `.error` is the exception path. -/
def makeSupervisorDecision (oracle : Except Unit SupervisorDecision)
    (customer_message : String) : SupervisorDecision :=
  match oracle with
  | .ok d => validateDecision d
  | .error _ => fallbackDecision customer_message

/-- Roles of entries appended to the `messages` channel. -/
inductive MsgRole where
  | user
  | system
  | assistant
  | error
deriving Repr, DecidableEq

/-- One entry of the `messages` channel. -/
structure ChatMessage where
  role : MsgRole
  content : String
deriving Repr, DecidableEq

/-- Embedding of `GraphState` (`agent.py` lines 41-74).  The
`agent_responses` dict is an association list keyed by agent identifier;
response payloads are kept as opaque `Option String` values. -/
structure GraphState where
  customer_message : String
  session_id : String
  customer_id : Option String
  can_respond_directly : Bool
  direct_response : Option String
  selected_agents : List String
  agents_to_call : List String
  agent_responses : List (String × Option String)
  synthesized_response : Option String
  confidence_score : Option ℚ
  messages : List ChatMessage
deriving Repr, DecidableEq

/-- Python dict assignment `m[k] = v` on an association list: replaces an
existing binding in place, otherwise appends (insertion order kept). -/
def setKey (m : List (String × Option String)) (k : String) (v : Option String) :
    List (String × Option String) :=
  if m.any (fun p => p.1 == k) then
    m.map (fun p => if p.1 = k then (k, v) else p)
  else
    m ++ [(k, v)]

/-- Target of a `Command(goto=...)`: a specialist node or the synthesizer. -/
inductive Goto where
  | agent (id : String)
  | synthesizer
deriving Repr, DecidableEq

/-- `_get_next_agent` (`agent.py` lines 506-510). -/
def getNextAgent : List String → Goto
  | [] => Goto.synthesizer
  | a :: _ => Goto.agent a

/-- `_supervisor_node` (`agent.py` lines 229-284): one oracle call, state
update, and a `Command` routing to the first selected agent or to the
synthesizer. -/
def supervisorNode (oracle : Except Unit SupervisorDecision) (st : GraphState) :
    GraphState × Goto :=
  let d := makeSupervisorDecision oracle st.customer_message
  let st1 := { st with
    can_respond_directly := d.can_respond_directly
    direct_response := d.direct_response
    selected_agents := d.selected_agents
    agents_to_call := d.selected_agents
    agent_responses := []
    messages := st.messages ++ [⟨MsgRole.system, "Intent analyzed: " ++ d.primary_intent⟩] }
  if d.can_respond_directly then
    (st1, Goto.synthesizer)
  else
    match d.selected_agents with
    | a :: _ => (st1, Goto.agent a)
    | [] => (st1, Goto.synthesizer)

/-- `_generic_agent_node` (`agent.py` lines 302-372).  The specialist HTTP
call is a parameter `specs : String → Except String String`; the `.error`
branch is the `except` block: the agent is removed from `agents_to_call`
and only an error message is appended — nothing is written to
`agent_responses`. -/
def genericAgentNode (specs : String → Except String String) (agent_type : String)
    (st : GraphState) : GraphState × Goto :=
  match specs agent_type with
  | .ok resp =>
      let responses := setKey st.agent_responses agent_type (some resp)
      let rem := st.agents_to_call.erase agent_type
      ({ st with
          agent_responses := responses
          agents_to_call := rem
          messages := st.messages ++
            [⟨MsgRole.assistant, agent_type ++ " completed processing"⟩] },
        getNextAgent rem)
  | .error e =>
      let rem := st.agents_to_call.erase agent_type
      ({ st with
          agents_to_call := rem
          messages := st.messages ++
            [⟨MsgRole.error, "Failed to call " ++ agent_type ++ ": " ++ e⟩] },
        getNextAgent rem)

/-- Canned answer when no valid specialist response exists
(`_synthesize_response`). -/
def apologyNoSystems : String :=
  "I apologize, but I\x27m having trouble accessing our systems right now. Please try again in a moment."

/-- Fallback answer when the structured synthesis call raises. -/
def synthesisFallback : String :=
  "I\x27m having trouble processing your request. Please try again."

/-- Index of the last space in a list of characters, or -1 (Python
`str.rfind(' ')`). -/
def rfindSpace (l : List Char) : Int :=
  match l.reverse.findIdx? (fun c => c == ' ') with
  | none => -1
  | some i => (l.length : Int) - 1 - (i : Int)

/-- `truncate_text` (`shared/utils.py`): truncate to `maxLength`
characters, preferring the last word boundary when it lies past 80% of
the limit. -/
def truncateText (text : String) (maxLength : Nat) : String :=
  if text.toList.length ≤ maxLength then text
  else
    let truncated := text.toList.take maxLength
    let lastSpace := rfindSpace truncated
    if (lastSpace : ℚ) > (maxLength : ℚ) * (8 / 10) then
      ⟨truncated.take lastSpace.toNat⟩ ++ "..."
    else
      ⟨truncated⟩ ++ "..."

/-- `_synthesize_response` (`agent.py` lines 990-1093).  The structured
synthesis LLM call is the parameter `synthLLM`; response payloads are
already plain text in this model, so `extract_response_text` is the
identity.  `600 = max_response_words * 6`. -/
def synthesizeResponse (synthLLM : String → List (String × String) → Except Unit String)
    (customer_message : String) (agent_responses : List (String × Option String)) : String :=
  let valid : List (String × String) :=
    agent_responses.filterMap (fun p => p.2.map (fun v => (p.1, v)))
  match valid with
  | [] => apologyNoSystems
  | [(_, r)] => "Based on my analysis: " ++ r
  | _ =>
      match synthLLM customer_message valid with
      | .ok s => truncateText s 600
      | .error _ => synthesisFallback

/-- `_synthesizer_node` (`agent.py` lines 462-492): direct supervisor
response verbatim at confidence 0.9, otherwise synthesis with confidence
0.8 when any agent response exists and 0.1 when none does. -/
def synthesizerNode (synthLLM : String → List (String × String) → Except Unit String)
    (st : GraphState) : GraphState :=
  if st.can_respond_directly && optStrTruthy st.direct_response then
    { st with
        synthesized_response := st.direct_response
        confidence_score := some (9 / 10)
        messages := st.messages ++ [⟨MsgRole.assistant, st.direct_response.getD ""⟩] }
  else
    let resp := synthesizeResponse synthLLM st.customer_message st.agent_responses
    { st with
        synthesized_response := some resp
        confidence_score := some (if st.agent_responses.isEmpty then 1 / 10 else 8 / 10)
        messages := st.messages ++ [⟨MsgRole.assistant, resp⟩] }

/-- Result of running the specialist segment of a turn: final state, the
specialists actually invoked (in order), and the state after each node. -/
structure LoopResult where
  state : GraphState
  calls : List String
  trace : List GraphState
deriving Repr

/-- The specialist dispatch loop: while the `Command` targets an agent
node, run `_generic_agent_node` for it.  Fuel bounds the number of node
executions; `runTurn` supplies `agents_to_call.length`, which suffices
because each node removes its own identifier from the head of the list. -/
def runAgentsLoop (specs : String → Except String String) :
    Nat → GraphState → Goto → LoopResult
  | _, st, Goto.synthesizer => ⟨st, [], []⟩
  | 0, st, Goto.agent _ => ⟨st, [], []⟩
  | Nat.succ n, st, Goto.agent a =>
      let p := genericAgentNode specs a st
      let r := runAgentsLoop specs n p.1 p.2
      ⟨r.state, a :: r.calls, p.1 :: r.trace⟩

/-- An inbound `SupervisorRequest` (the fields the graph reads). -/
structure Request where
  customer_message : String
  session_id : String
  customer_id : Option String
deriving Repr, DecidableEq

/-- The initial state built by `process_request` (`agent.py` lines 747-757). -/
def initState (req : Request) : GraphState :=
  { customer_message := req.customer_message
    session_id := req.session_id
    customer_id := req.customer_id
    can_respond_directly := false
    direct_response := none
    selected_agents := []
    agents_to_call := []
    agent_responses := []
    synthesized_response := none
    confidence_score := none
    messages := [⟨MsgRole.user, req.customer_message⟩] }

/-- Result of one full conversation turn. -/
structure TurnResult where
  final : GraphState
  calls : List String
  trace : List GraphState
deriving Repr

/-- One end-to-end turn of the graph: supervisor node, the specialist
nodes it routes through, then the synthesizer (terminal). -/
def runTurn (oracle : Except Unit SupervisorDecision)
    (specs : String → Except String String)
    (synthLLM : String → List (String × String) → Except Unit String)
    (req : Request) : TurnResult :=
  let p := supervisorNode oracle (initState req)
  let r := runAgentsLoop specs p.1.agents_to_call.length p.1 p.2
  let fin := synthesizerNode synthLLM r.state
  ⟨fin, r.calls, p.1 :: (r.trace ++ [fin])⟩

/-! ### Properties of the routing decision -/

/-- Helper: effect of `validateDecision` on a consistent direct-response
decision. -/
theorem validateDecision_of_direct (d : SupervisorDecision)
    (hd : d.can_respond_directly = true) (ht : optStrTruthy d.direct_response = true) :
    (validateDecision d).can_respond_directly = true ∧
    (validateDecision d).direct_response = d.direct_response := by
  simp [validateDecision, hd, ht]

/-- C1: when the oracle returns `can_respond_directly = true` together
with a non-empty `direct_answer`, no specialist call occurs, the final
answer equals the direct answer verbatim, and the confidence is the
fixed high value 0.9. -/
theorem direct_answer_short_circuit (d : SupervisorDecision)
    (specs : String → Except String String)
    (synthLLM : String → List (String × String) → Except Unit String)
    (req : Request) (s : String)
    (hd : d.can_respond_directly = true)
    (hr : d.direct_response = some s)
    (hs : s ≠ "") :
    (runTurn (Except.ok d) specs synthLLM req).calls = [] ∧
    (runTurn (Except.ok d) specs synthLLM req).final.synthesized_response = some s ∧
    (runTurn (Except.ok d) specs synthLLM req).final.confidence_score = some (9 / 10) := by
  have ht : optStrTruthy d.direct_response = true := by
    simp [hr, optStrTruthy, hs]
  simp [runTurn, supervisorNode, makeSupervisorDecision, validateDecision, hd, ht, hr,
    runAgentsLoop, synthesizerNode, optStrTruthy, hs]

/-- Witness for C1 at a concrete decision and request. -/
theorem direct_answer_short_circuit_witness :
    (runTurn (Except.ok ⟨"general", true, some "Hello there", [], [], false, "greeting"⟩)
        (fun _ => Except.error "down") (fun _ _ => Except.error ())
        ⟨"hi", "sess-1", none⟩).calls = [] ∧
    (runTurn (Except.ok ⟨"general", true, some "Hello there", [], [], false, "greeting"⟩)
        (fun _ => Except.error "down") (fun _ _ => Except.error ())
        ⟨"hi", "sess-1", none⟩).final.synthesized_response = some "Hello there" ∧
    (runTurn (Except.ok ⟨"general", true, some "Hello there", [], [], false, "greeting"⟩)
        (fun _ => Except.error "down") (fun _ _ => Except.error ())
        ⟨"hi", "sess-1", none⟩).final.confidence_score = some (9 / 10) :=
  direct_answer_short_circuit _ _ _ _ "Hello there" rfl rfl (by decide)

/-- C2: every effective `selected_agents` list draws only from the fixed
enumerated set and has length at most 3; a too-long proposal from the
oracle is truncated to its first three valid entries, not rejected. -/
theorem routing_bound (oracle : Except Unit SupervisorDecision) (msg : String) :
    (makeSupervisorDecision oracle msg).selected_agents.length ≤ 3 ∧
    (∀ a ∈ (makeSupervisorDecision oracle msg).selected_agents, a ∈ validAgents) ∧
    (∀ d, oracle = Except.ok d →
      (d.can_respond_directly = false ∨ optStrTruthy d.direct_response = true) →
      (makeSupervisorDecision oracle msg).selected_agents =
        (d.selected_agents.filter (fun a => validAgents.contains a)).take 3) := by
  refine ⟨?_, ?_, ?_⟩
  · cases oracle with
    | error e => simp [makeSupervisorDecision, fallbackDecision]
    | ok d =>
        simp only [makeSupervisorDecision, validateDecision]
        exact le_trans (List.length_take_le _ _) (le_refl 3)
  · cases oracle with
    | error e =>
        intro a ha
        simp [makeSupervisorDecision, fallbackDecision] at ha
        simp [ha, validAgents]
    | ok d =>
        intro a ha
        simp only [makeSupervisorDecision, validateDecision] at ha
        have ha2 := List.mem_of_mem_take ha
        have := List.of_mem_filter ha2
        exact List.mem_of_elem_eq_true this
  · intro d hod hcons
    subst hod
    simp only [makeSupervisorDecision, validateDecision]
    rcases hcons with h | h
    · simp [h]
    · rcases hdir : d.can_respond_directly with _ | _
      · simp [hdir]
      · simp [hdir, h]

/-- Witness for C2: an over-long oracle proposal with an invalid entry is
filtered and truncated to three. -/
theorem routing_bound_witness :
    (makeSupervisorDecision
      (Except.ok ⟨"order", false, none,
        ["order_management", "unknown_agent", "troubleshooting", "personalization",
          "product_recommendation"], [], false, "r"⟩) "msg").selected_agents =
      ["order_management", "troubleshooting", "personalization"] ∧
    (makeSupervisorDecision
      (Except.ok ⟨"order", false, none,
        ["order_management", "unknown_agent", "troubleshooting", "personalization",
          "product_recommendation"], [], false, "r"⟩) "msg").selected_agents.length ≤ 3 := by
  have h := routing_bound
    (Except.ok ⟨"order", false, none,
      ["order_management", "unknown_agent", "troubleshooting", "personalization",
        "product_recommendation"], [], false, "r"⟩) "msg"
  refine ⟨?_, h.1⟩
  have h3 := h.2.2 _ rfl (Or.inl rfl)
  rw [h3]
  decide

/-! ### Characterizing the specialist loop -/

/-- The agent-responses dict produced by running the specialist nodes in
`agents` order from `resps`: only successful calls are recorded. -/
def collectResponses (specs : String → Except String String)
    (resps : List (String × Option String)) : List String → List (String × Option String)
  | [] => resps
  | a :: rest =>
      match specs a with
      | .ok r => collectResponses specs (setKey resps a (some r)) rest
      | .error _ => collectResponses specs resps rest

/-- The messages appended by the specialist nodes, one per invoked agent. -/
def agentMessages (specs : String → Except String String) : List String → List ChatMessage
  | [] => []
  | a :: rest =>
      (match specs a with
        | .ok _ => ChatMessage.mk MsgRole.assistant (a ++ " completed processing")
        | .error e => ChatMessage.mk MsgRole.error ("Failed to call " ++ a ++ ": " ++ e)) ::
      agentMessages specs rest

theorem genericAgentNode_fst_agents (specs : String → Except String String)
    (a : String) (st : GraphState) :
    ((genericAgentNode specs a st).1).agents_to_call = st.agents_to_call.erase a := by
  cases h : specs a <;> simp [genericAgentNode, h]

theorem genericAgentNode_fst_selected (specs : String → Except String String)
    (a : String) (st : GraphState) :
    ((genericAgentNode specs a st).1).selected_agents = st.selected_agents := by
  cases h : specs a <;> simp [genericAgentNode, h]

theorem synthesizerNode_agents (synthLLM : String → List (String × String) → Except Unit String)
    (st : GraphState) : (synthesizerNode synthLLM st).agents_to_call = st.agents_to_call := by
  simp only [synthesizerNode]
  split <;> rfl

theorem synthesizerNode_selected (synthLLM : String → List (String × String) → Except Unit String)
    (st : GraphState) : (synthesizerNode synthLLM st).selected_agents = st.selected_agents := by
  simp only [synthesizerNode]
  split <;> rfl

theorem synthesizerNode_responses (synthLLM : String → List (String × String) → Except Unit String)
    (st : GraphState) : (synthesizerNode synthLLM st).agent_responses = st.agent_responses := by
  simp only [synthesizerNode]
  split <;> rfl

/-- Full characterization of the specialist loop when started, as the
graph does, at the head of `agents_to_call` with fuel equal to its
length: every listed specialist is invoked once, in order; successful
responses are collected; one message is appended per specialist. -/
theorem runAgentsLoop_run (specs : String → Except String String) :
    ∀ (l : List String) (st : GraphState), st.agents_to_call = l →
    (runAgentsLoop specs l.length st (getNextAgent l)).calls = l ∧
    (runAgentsLoop specs l.length st (getNextAgent l)).state =
      { st with
          agent_responses := collectResponses specs st.agent_responses l
          agents_to_call := []
          messages := st.messages ++ agentMessages specs l } := by
  intro l
  induction l with
  | nil =>
      intro st h
      refine ⟨rfl, ?_⟩
      simp only [getNextAgent, runAgentsLoop, collectResponses, agentMessages,
        List.append_nil]
      rw [← h]
  | cons a rest ih =>
      intro st h
      have hstep : runAgentsLoop specs (a :: rest).length st (getNextAgent (a :: rest)) =
          ⟨(runAgentsLoop specs rest.length (genericAgentNode specs a st).1
              (genericAgentNode specs a st).2).state,
            a :: (runAgentsLoop specs rest.length (genericAgentNode specs a st).1
              (genericAgentNode specs a st).2).calls,
            (genericAgentNode specs a st).1 ::
              (runAgentsLoop specs rest.length (genericAgentNode specs a st).1
                (genericAgentNode specs a st).2).trace⟩ := by
        simp [getNextAgent, runAgentsLoop]
      have hrem : ((genericAgentNode specs a st).1).agents_to_call = rest := by
        rw [genericAgentNode_fst_agents, h, List.erase_cons_head]
      have hgoto : (genericAgentNode specs a st).2 = getNextAgent rest := by
        cases hs : specs a <;> simp [genericAgentNode, hs, h, List.erase_cons_head,
          getNextAgent]
      rw [hgoto] at hstep
      have := ih (genericAgentNode specs a st).1 hrem
      refine ⟨?_, ?_⟩
      · rw [hstep]
        simpa using this.1
      · rw [hstep]
        simp only [this.2]
        cases hs : specs a with
        | ok r =>
            simp [genericAgentNode, hs, collectResponses, agentMessages, h,
              List.erase_cons_head, List.append_assoc]
        | error e =>
            simp [genericAgentNode, hs, collectResponses, agentMessages, h,
              List.erase_cons_head, List.append_assoc]

/-- Invariant of the specialist loop used for the subsequence claim:
along the loop's trace `agents_to_call` only shrinks (as a sublist),
`selected_agents` never changes, and the trace ends in the loop's final
state. -/
theorem runAgentsLoop_inv (specs : String → Except String String) :
    ∀ (fuel : Nat) (st : GraphState) (g : Goto),
    st.agents_to_call.Sublist st.selected_agents →
    (∀ s ∈ st :: (runAgentsLoop specs fuel st g).trace,
        s.agents_to_call.Sublist s.selected_agents) ∧
    List.Chain'
      (fun x y => y.agents_to_call.Sublist x.agents_to_call ∧
        y.selected_agents = x.selected_agents)
      (st :: (runAgentsLoop specs fuel st g).trace) ∧
    (st :: (runAgentsLoop specs fuel st g).trace).getLast? =
      some (runAgentsLoop specs fuel st g).state := by
  intro fuel
  induction fuel with
  | zero =>
      intro st g hsub
      cases g <;> simp [runAgentsLoop, hsub]
  | succ n ihn =>
      intro st g hsub
      cases g with
      | synthesizer => simp [runAgentsLoop, hsub]
      | agent a =>
          have hstep :
              runAgentsLoop specs (n + 1) st (Goto.agent a) =
              ⟨(runAgentsLoop specs n (genericAgentNode specs a st).1
                  (genericAgentNode specs a st).2).state,
                a :: (runAgentsLoop specs n (genericAgentNode specs a st).1
                  (genericAgentNode specs a st).2).calls,
                (genericAgentNode specs a st).1 ::
                  (runAgentsLoop specs n (genericAgentNode specs a st).1
                    (genericAgentNode specs a st).2).trace⟩ := by
            simp [runAgentsLoop]
          have hsub1 : ((genericAgentNode specs a st).1).agents_to_call.Sublist
              ((genericAgentNode specs a st).1).selected_agents := by
            rw [genericAgentNode_fst_agents, genericAgentNode_fst_selected]
            exact List.Sublist.trans (List.erase_sublist a st.agents_to_call) hsub
          have ih := ihn (genericAgentNode specs a st).1 (genericAgentNode specs a st).2 hsub1
          rw [hstep]
          refine ⟨?_, ?_, ?_⟩
          · intro s hs
            rcases List.mem_cons.mp hs with h1 | h1
            · exact h1 ▸ hsub
            · exact ih.1 s h1
          · rw [List.chain'_cons]
            refine ⟨⟨?_, ?_⟩, ih.2.1⟩
            · rw [genericAgentNode_fst_agents]
              exact List.erase_sublist a st.agents_to_call
            · rw [genericAgentNode_fst_selected]
          · rw [List.getLast?_cons_cons]
            exact ih.2.2

/-- C9: throughout a turn, `agents_to_call` is a subsequence (sublist) of
`selected_agents`, and along consecutive states of the turn
`agents_to_call` only ever shrinks while `selected_agents` is unchanged —
an identifier once removed is never re-added. -/
theorem remaining_specialists_invariant (oracle : Except Unit SupervisorDecision)
    (specs : String → Except String String)
    (synthLLM : String → List (String × String) → Except Unit String)
    (req : Request) :
    (∀ s ∈ (runTurn oracle specs synthLLM req).trace,
        s.agents_to_call.Sublist s.selected_agents) ∧
    List.Chain'
      (fun x y => y.agents_to_call.Sublist x.agents_to_call ∧
        y.selected_agents = x.selected_agents)
      (runTurn oracle specs synthLLM req).trace := by
  have hsub0 : ((supervisorNode oracle (initState req)).1).agents_to_call.Sublist
      ((supervisorNode oracle (initState req)).1).selected_agents := by
    simp only [supervisorNode]
    split
    · exact List.Sublist.refl _
    · split <;> exact List.Sublist.refl _
  have hinv := runAgentsLoop_inv specs
    ((supervisorNode oracle (initState req)).1).agents_to_call.length
    (supervisorNode oracle (initState req)).1
    (supervisorNode oracle (initState req)).2 hsub0
  have htrace : (runTurn oracle specs synthLLM req).trace =
      ((supervisorNode oracle (initState req)).1 ::
        (runAgentsLoop specs ((supervisorNode oracle (initState req)).1).agents_to_call.length
          (supervisorNode oracle (initState req)).1
          (supervisorNode oracle (initState req)).2).trace) ++
      [synthesizerNode synthLLM
        (runAgentsLoop specs ((supervisorNode oracle (initState req)).1).agents_to_call.length
          (supervisorNode oracle (initState req)).1
          (supervisorNode oracle (initState req)).2).state] := by
    simp [runTurn]
  constructor
  · intro s hs
    rw [htrace] at hs
    rcases List.mem_append.mp hs with hs | hs
    · exact hinv.1 s hs
    · have hfin : s = synthesizerNode synthLLM
          (runAgentsLoop specs
            ((supervisorNode oracle (initState req)).1).agents_to_call.length
            (supervisorNode oracle (initState req)).1
            (supervisorNode oracle (initState req)).2).state := by
        simpa using hs
      have hlast : (runAgentsLoop specs
            ((supervisorNode oracle (initState req)).1).agents_to_call.length
            (supervisorNode oracle (initState req)).1
            (supervisorNode oracle (initState req)).2).state ∈
          ((supervisorNode oracle (initState req)).1 ::
            (runAgentsLoop specs
              ((supervisorNode oracle (initState req)).1).agents_to_call.length
              (supervisorNode oracle (initState req)).1
              (supervisorNode oracle (initState req)).2).trace).getLast? := hinv.2.2
      obtain ⟨hne, heq⟩ := List.mem_getLast?_eq_getLast hlast
      have hmem := heq ▸ List.getLast_mem hne
      have := hinv.1 _ hmem
      rw [hfin, synthesizerNode_agents, synthesizerNode_selected]
      exact this
  · rw [htrace, List.chain'_append]
    refine ⟨hinv.2.1, List.chain'_singleton _, ?_⟩
    intro x hx y hy
    rw [hinv.2.2] at hx
    simp only [Option.mem_def, Option.some.injEq] at hx
    simp only [List.head?_cons, Option.mem_def, Option.some.injEq] at hy
    subst hx
    subst hy
    rw [synthesizerNode_agents, synthesizerNode_selected]
    exact ⟨List.Sublist.refl _, rfl⟩

/-! ### Oracle-failure fallback -/

theorem append_ne_empty_left (a b : String) (h : a ≠ "") : a ++ b ≠ "" := by
  intro hc
  have hd : (a ++ b).data = ([] : List Char) := by rw [hc]
  rw [String.data_append] at hd
  rcases List.append_eq_nil.mp hd with ⟨h1, _⟩
  exact h (by cases a; simp_all)

theorem append_ne_empty_right (a b : String) (h : b ≠ "") : a ++ b ≠ "" := by
  intro hc
  have hd : (a ++ b).data = ([] : List Char) := by rw [hc]
  rw [String.data_append] at hd
  rcases List.append_eq_nil.mp hd with ⟨_, h2⟩
  exact h (by cases b; simp_all)

/-- C4: if the oracle call fails, or flags a direct answer without
supplying one, the effective selection is the single default specialist
`["order_management"]`, and the turn still completes with a non-empty
final answer. -/
theorem oracle_failure_fallback (oracle : Except Unit SupervisorDecision)
    (specs : String → Except String String)
    (synthLLM : String → List (String × String) → Except Unit String)
    (req : Request)
    (h : oracle = Except.error () ∨
      ∃ d, oracle = Except.ok d ∧ d.can_respond_directly = true ∧
        optStrTruthy d.direct_response = false) :
    (makeSupervisorDecision oracle req.customer_message).selected_agents =
      ["order_management"] ∧
    ∃ ans, (runTurn oracle specs synthLLM req).final.synthesized_response = some ans ∧
      ans ≠ "" := by
  have hsel : (makeSupervisorDecision oracle req.customer_message).selected_agents =
      ["order_management"] := by
    rcases h with h | ⟨d, hod, hcd, hdr⟩
    · subst h; rfl
    · subst hod
      simp [makeSupervisorDecision, validateDecision, hcd, hdr, validAgents]
  have hcrd : (makeSupervisorDecision oracle req.customer_message).can_respond_directly =
      false := by
    rcases h with h | ⟨d, hod, hcd, hdr⟩
    · subst h; rfl
    · subst hod
      simp [makeSupervisorDecision, validateDecision, hcd, hdr]
  refine ⟨hsel, ?_⟩
  have hp2 : (supervisorNode oracle (initState req)).2 = Goto.agent "order_management" := by
    simp [supervisorNode, initState, hcrd, hsel]
  have hpa : ((supervisorNode oracle (initState req)).1).agents_to_call =
      ["order_management"] := by
    simp [supervisorNode, initState, hcrd, hsel]
  have hpc : ((supervisorNode oracle (initState req)).1).can_respond_directly = false := by
    simp [supervisorNode, initState, hcrd, hsel]
  have hpresp : ((supervisorNode oracle (initState req)).1).agent_responses = [] := by
    simp [supervisorNode, initState, hcrd, hsel]
  have hrun := (runAgentsLoop_run specs ["order_management"]
    (supervisorNode oracle (initState req)).1 hpa).2
  have hfin : (runTurn oracle specs synthLLM req).final =
      synthesizerNode synthLLM
        (runAgentsLoop specs 1 (supervisorNode oracle (initState req)).1
          (Goto.agent "order_management")).state := by
    simp only [runTurn, hpa, hp2, List.length_cons, List.length_nil]
  rw [hfin]
  have hgn : getNextAgent ["order_management"] = Goto.agent "order_management" := rfl
  rw [show (1 : Nat) = (["order_management"] : List String).length from rfl, ← hgn, hrun]
  cases hs : specs "order_management" with
  | ok r =>
      refine ⟨"Based on my analysis: " ++ r, ?_, ?_⟩
      · simp [synthesizerNode, hpc, hpresp, collectResponses, hs, setKey,
          synthesizeResponse]
      · exact append_ne_empty_left _ _ (by decide)
  | error e =>
      refine ⟨apologyNoSystems, ?_, ?_⟩
      · simp [synthesizerNode, hpc, hpresp, collectResponses, hs,
          synthesizeResponse]
      · decide

/-- Witness for C4: oracle times out, the single fallback specialist also
fails, and the turn still produces the canned non-empty apology. -/
theorem oracle_failure_fallback_witness :
    (makeSupervisorDecision (Except.error ()) "where is my order").selected_agents =
      ["order_management"] ∧
    ∃ ans, (runTurn (Except.error ()) (fun _ => Except.error "timeout")
        (fun _ _ => Except.error ()) ⟨"where is my order", "s2", none⟩).final.synthesized_response =
        some ans ∧ ans ≠ "" := by
  have h := oracle_failure_fallback (Except.error ()) (fun _ => Except.error "timeout")
    (fun _ _ => Except.error ()) ⟨"where is my order", "s2", none⟩ (Or.inl rfl)
  exact h

/-! ### Specialist failure handling -/

theorem lookup_map_replace (m : List (String × Option String)) (k : String)
    (v : Option String) (hany : m.any (fun p => p.1 == k) = true) :
    (m.map (fun p => if p.1 = k then (k, v) else p)).lookup k = some v := by
  induction m with
  | nil => simp at hany
  | cons p m ih =>
      rcases p with ⟨a, b⟩
      by_cases hp : a = k
      · simp only [List.map_cons, if_pos hp]
        exact List.lookup_cons_self
      · have hm : m.any (fun q => q.1 == k) = true := by
          simpa [List.any_cons, hp] using hany
        have hkp : (k == a) = false := beq_false_of_ne (Ne.symm hp)
        simp only [List.map_cons, if_neg hp]
        rw [List.lookup_cons, hkp]
        exact ih hm

theorem lookup_map_replace_ne (m : List (String × Option String)) (k a : String)
    (v : Option String) (h : k ≠ a) :
    (m.map (fun p => if p.1 = a then (a, v) else p)).lookup k = m.lookup k := by
  induction m with
  | nil => rfl
  | cons p m ih =>
      rcases p with ⟨c, b⟩
      by_cases hp : c = a
      · have hka : (k == a) = false := beq_false_of_ne h
        have hkc : (k == c) = false := beq_false_of_ne (hp ▸ h)
        simp only [List.map_cons, if_pos hp]
        rw [List.lookup_cons, List.lookup_cons, hka, hkc]
        exact ih
      · simp only [List.map_cons, if_neg hp]
        rw [List.lookup_cons, List.lookup_cons]
        cases hkc : (k == c)
        · exact ih
        · rfl

theorem lookup_eq_none_of_not_any (m : List (String × Option String)) (k : String)
    (h : m.any (fun p => p.1 == k) = false) : m.lookup k = none := by
  rw [List.lookup_eq_none_iff]
  intro p hp
  have := (List.any_eq_false).mp h p hp
  simp only [bne_iff_ne, ne_eq]
  intro hc
  exact absurd (by simp [hc]) this

/-- `setKey` stores `v` under `k`. -/
theorem lookup_setKey_self (m : List (String × Option String)) (k : String)
    (v : Option String) : (setKey m k v).lookup k = some v := by
  by_cases hany : m.any (fun p => p.1 == k) = true
  · simp only [setKey, hany, if_pos]
    exact lookup_map_replace m k v hany
  · have hf : m.any (fun p => p.1 == k) = false := by
      cases hx : m.any (fun p => p.1 == k)
      · rfl
      · exact absurd hx hany
    simp only [setKey, hf, Bool.false_eq_true, if_neg, not_false_iff]
    rw [List.lookup_append, lookup_eq_none_of_not_any m k hf]
    simp [List.lookup_cons_self]

/-- `setKey` leaves other keys unchanged. -/
theorem lookup_setKey_ne (m : List (String × Option String)) (k a : String)
    (v : Option String) (h : k ≠ a) : (setKey m a v).lookup k = m.lookup k := by
  by_cases hany : m.any (fun p => p.1 == a) = true
  · simp only [setKey, hany, if_pos]
    exact lookup_map_replace_ne m k a v h
  · have hf : m.any (fun p => p.1 == a) = false := by
      cases hx : m.any (fun p => p.1 == a)
      · rfl
      · exact absurd hx hany
    simp only [setKey, hf, Bool.false_eq_true, if_neg, not_false_iff]
    rw [List.lookup_append]
    have : List.lookup k [(a, v)] = none := by
      rw [List.lookup_cons, beq_false_of_ne h]
      rfl
    rw [this, Option.or_none]

/-- A specialist whose call fails never gets an entry in the responses
dict. -/
theorem collectResponses_lookup_err (specs : String → Except String String)
    (k : String) (e : String) (hk : specs k = Except.error e) :
    ∀ (l : List String) (resps : List (String × Option String)),
    (collectResponses specs resps l).lookup k = resps.lookup k := by
  intro l
  induction l with
  | nil => intro resps; rfl
  | cons a rest ih =>
      intro resps
      cases hs : specs a with
      | ok r =>
          have hne : k ≠ a := by
            intro hc
            rw [hc, hs] at hk
            cases hk
          simp only [collectResponses, hs]
          rw [ih, lookup_setKey_ne _ _ _ _ hne]
      | error e2 =>
          simp only [collectResponses, hs]
          exact ih resps

/-- Specialists outside the invoked list are untouched. -/
theorem collectResponses_lookup_notmem (specs : String → Except String String)
    (k : String) :
    ∀ (l : List String), k ∉ l →
    ∀ (resps : List (String × Option String)),
    (collectResponses specs resps l).lookup k = resps.lookup k := by
  intro l
  induction l with
  | nil => intro _ resps; rfl
  | cons a rest ih =>
      intro hk resps
      have hka : k ≠ a := fun hc => hk (hc ▸ List.mem_cons_self a rest)
      have hkr : k ∉ rest := fun hc => hk (List.mem_cons_of_mem a hc)
      cases hs : specs a with
      | ok r =>
          simp only [collectResponses, hs]
          rw [ih hkr, lookup_setKey_ne _ _ _ _ hka]
      | error e2 =>
          simp only [collectResponses, hs]
          exact ih hkr resps

/-- A specialist whose call succeeds ends up with its response stored
under its identifier. -/
theorem collectResponses_lookup_ok (specs : String → Except String String)
    (k r : String) (hk : specs k = Except.ok r) :
    ∀ (l : List String), k ∈ l →
    ∀ (resps : List (String × Option String)),
    (collectResponses specs resps l).lookup k = some (some r) := by
  intro l
  induction l with
  | nil => intro hmem; cases hmem
  | cons a rest ih =>
      intro hmem resps
      by_cases hkr : k ∈ rest
      · cases hs : specs a with
        | ok r2 => simp only [collectResponses, hs]; exact ih hkr _
        | error e2 => simp only [collectResponses, hs]; exact ih hkr _
      · have hka : k = a := by
          rcases List.mem_cons.mp hmem with h1 | h1
          · exact h1
          · exact absurd h1 hkr
        subst hka
        simp only [collectResponses, hk]
        rw [collectResponses_lookup_notmem specs k rest hkr, lookup_setKey_self]

/-- A successful lookup comes from an actual entry of the list. -/
theorem mem_of_lookup_eq_some (m : List (String × Option String)) (k : String)
    (v : Option String) (h : m.lookup k = some v) : (k, v) ∈ m := by
  rcases List.lookup_eq_some_iff.mp h with ⟨l1, l2, hl, _⟩
  rw [hl]
  exact List.mem_append_right _ (List.mem_cons_self _ _)

/-- The error message recorded for a failing specialist appears in the
messages appended by the loop. -/
theorem mem_agentMessages_of_err (specs : String → Except String String)
    (X e : String) (l : List String) (hX : X ∈ l) (hs : specs X = Except.error e) :
    (⟨MsgRole.error, "Failed to call " ++ X ++ ": " ++ e⟩ : ChatMessage) ∈
      agentMessages specs l := by
  induction l with
  | nil => cases hX
  | cons a rest ih =>
      rcases List.mem_cons.mp hX with h1 | h1
      · subst h1
        simp only [agentMessages, hs]
        exact List.mem_cons_self _ _
      · simp only [agentMessages]
        exact List.mem_cons_of_mem _ (ih h1)

theorem synthesizerNode_messages_mem
    (synthLLM : String → List (String × String) → Except Unit String)
    (st : GraphState) (m : ChatMessage) (hm : m ∈ st.messages) :
    m ∈ (synthesizerNode synthLLM st).messages := by
  simp only [synthesizerNode]
  split <;> exact List.mem_append_left _ hm

theorem truncateText_ne_empty (s : String) (n : Nat) (hs : s ≠ "") :
    truncateText s n ≠ "" := by
  simp only [truncateText]
  split
  · exact hs
  · split <;> exact append_ne_empty_right _ _ (by decide)

/-- If at least one valid response exists, the synthesis step produces a
non-empty answer (given that a successful synthesis call is non-empty). -/
theorem synthesizeResponse_ne_empty
    (synthLLM : String → List (String × String) → Except Unit String)
    (msg : String) (resps : List (String × Option String))
    (hvalid : resps.filterMap (fun p => p.2.map (fun v => (p.1, v))) ≠ [])
    (hsynth : ∀ s, synthLLM msg (resps.filterMap (fun p => p.2.map (fun v => (p.1, v)))) =
      Except.ok s → s ≠ "") :
    synthesizeResponse synthLLM msg resps ≠ "" := by
  simp only [synthesizeResponse]
  rcases hv : resps.filterMap (fun p => p.2.map (fun v => (p.1, v))) with _ | ⟨⟨k1, r1⟩, rest⟩
  · exact absurd hv hvalid
  · rw [hv]
    cases rest with
    | nil => exact append_ne_empty_left "Based on my analysis: " r1 (by decide)
    | cons q rest2 =>
        cases hsy : synthLLM msg ((k1, r1) :: q :: rest2) with
        | ok s =>
            exact truncateText_ne_empty s 600 (hsynth s (by rw [hv]; exact hsy))
        | error u =>
            show synthesisFallback ≠ ""
            decide

/-- The state written by the supervisor node is the same in all routing
branches. -/
theorem supervisorNode_fst (oracle : Except Unit SupervisorDecision) (st : GraphState) :
    (supervisorNode oracle st).1 =
      { st with
          can_respond_directly :=
            (makeSupervisorDecision oracle st.customer_message).can_respond_directly
          direct_response :=
            (makeSupervisorDecision oracle st.customer_message).direct_response
          selected_agents :=
            (makeSupervisorDecision oracle st.customer_message).selected_agents
          agents_to_call :=
            (makeSupervisorDecision oracle st.customer_message).selected_agents
          agent_responses := []
          messages := st.messages ++
            [⟨MsgRole.system, "Intent analyzed: " ++
              (makeSupervisorDecision oracle st.customer_message).primary_intent⟩] } := by
  simp only [supervisorNode]
  split
  · rfl
  · split <;> rfl

/-- When no direct response is flagged, the supervisor routes to the head
of the selected list (or the synthesizer when it is empty). -/
theorem supervisorNode_snd_of_not_direct (oracle : Except Unit SupervisorDecision)
    (st : GraphState)
    (h : (makeSupervisorDecision oracle st.customer_message).can_respond_directly = false) :
    (supervisorNode oracle st).2 =
      getNextAgent (makeSupervisorDecision oracle st.customer_message).selected_agents := by
  simp only [supervisorNode, h, Bool.false_eq_true, if_false]
  cases (makeSupervisorDecision oracle st.customer_message).selected_agents <;> rfl

/-- C3 counterexample to the claim as stated: when the order-management
specialist fails while product-recommendation succeeds, no marker of any
kind is stored under `responses["order_management"]` — the key is simply
absent — even though the specialist was invoked and the other response
was recorded. -/
theorem specialist_error_marker_counterexample :
    (runTurn
      (Except.ok ⟨"order", false, none,
        ["order_management", "product_recommendation"],
        ["order_management", "product_recommendation"], false, "r"⟩)
      (fun a => if a = "product_recommendation" then Except.ok "Product info"
        else Except.error "timeout")
      (fun _ _ => Except.error ())
      ⟨"help", "s3", none⟩).final.agent_responses.lookup "order_management" = none ∧
    "order_management" ∈ (runTurn
      (Except.ok ⟨"order", false, none,
        ["order_management", "product_recommendation"],
        ["order_management", "product_recommendation"], false, "r"⟩)
      (fun a => if a = "product_recommendation" then Except.ok "Product info"
        else Except.error "timeout")
      (fun _ _ => Except.error ())
      ⟨"help", "s3", none⟩).calls ∧
    (runTurn
      (Except.ok ⟨"order", false, none,
        ["order_management", "product_recommendation"],
        ["order_management", "product_recommendation"], false, "r"⟩)
      (fun a => if a = "product_recommendation" then Except.ok "Product info"
        else Except.error "timeout")
      (fun _ _ => Except.error ())
      ⟨"help", "s3", none⟩).final.agent_responses.lookup "product_recommendation" =
      some (some "Product info") := by
  refine ⟨?_, ?_, ?_⟩ <;> decide

/-- C3 (amended): when a specialist call fails, the error is recorded
only as an error-role entry in the `messages` channel — nothing is stored
under `responses[specialist_id]` — the failing specialist is skipped, the
turn continues through every selected specialist, and if another
specialist succeeded the synthesizer still produces a non-empty final
answer. -/
theorem specialist_failure_isolation (d : SupervisorDecision)
    (specs : String → Except String String)
    (synthLLM : String → List (String × String) → Except Unit String)
    (req : Request) (X e : String)
    (hd : d.can_respond_directly = false)
    (hX : X ∈ (makeSupervisorDecision (Except.ok d) req.customer_message).selected_agents)
    (hfail : specs X = Except.error e)
    (hY : ∃ Y, Y ∈ (makeSupervisorDecision (Except.ok d) req.customer_message).selected_agents ∧
      ∃ r, specs Y = Except.ok r)
    (hsynth : ∀ m vr s, synthLLM m vr = Except.ok s → s ≠ "") :
    (runTurn (Except.ok d) specs synthLLM req).final.agent_responses.lookup X = none ∧
    (⟨MsgRole.error, "Failed to call " ++ X ++ ": " ++ e⟩ : ChatMessage) ∈
      (runTurn (Except.ok d) specs synthLLM req).final.messages ∧
    (runTurn (Except.ok d) specs synthLLM req).calls =
      (makeSupervisorDecision (Except.ok d) req.customer_message).selected_agents ∧
    ∃ ans, (runTurn (Except.ok d) specs synthLLM req).final.synthesized_response = some ans ∧
      ans ≠ "" := by
  have hcrd : (makeSupervisorDecision (Except.ok d) req.customer_message).can_respond_directly =
      false := by
    simp [makeSupervisorDecision, validateDecision, hd]
  have hfst := supervisorNode_fst (Except.ok d) (initState req)
  have hpa : ((supervisorNode (Except.ok d) (initState req)).1).agents_to_call =
      (makeSupervisorDecision (Except.ok d) req.customer_message).selected_agents := by
    rw [hfst]
    simp only [initState]
  have hpc : ((supervisorNode (Except.ok d) (initState req)).1).can_respond_directly =
      false := by
    rw [hfst]
    simp only [initState]
    exact hcrd
  have hpresp : ((supervisorNode (Except.ok d) (initState req)).1).agent_responses = [] := by
    rw [hfst]
  have hp2 : (supervisorNode (Except.ok d) (initState req)).2 =
      getNextAgent (makeSupervisorDecision (Except.ok d) req.customer_message).selected_agents :=
    supervisorNode_snd_of_not_direct (Except.ok d) (initState req) hcrd
  have hrun := runAgentsLoop_run specs
    (makeSupervisorDecision (Except.ok d) req.customer_message).selected_agents
    (supervisorNode (Except.ok d) (initState req)).1 hpa
  have hfinal : (runTurn (Except.ok d) specs synthLLM req).final =
      synthesizerNode synthLLM
        (runAgentsLoop specs
          ((makeSupervisorDecision (Except.ok d) req.customer_message).selected_agents).length
          (supervisorNode (Except.ok d) (initState req)).1
          (getNextAgent
            (makeSupervisorDecision (Except.ok d) req.customer_message).selected_agents)).state := by
    simp only [runTurn, hpa, hp2]
  have hcalls : (runTurn (Except.ok d) specs synthLLM req).calls =
      (makeSupervisorDecision (Except.ok d) req.customer_message).selected_agents := by
    simp only [runTurn, hpa, hp2]
    exact hrun.1
  have hSresp : ((runAgentsLoop specs
      ((makeSupervisorDecision (Except.ok d) req.customer_message).selected_agents).length
      (supervisorNode (Except.ok d) (initState req)).1
      (getNextAgent
        (makeSupervisorDecision (Except.ok d) req.customer_message).selected_agents)).state).agent_responses =
      collectResponses specs []
        (makeSupervisorDecision (Except.ok d) req.customer_message).selected_agents := by
    rw [hrun.2]
    show collectResponses specs
        ((supervisorNode (Except.ok d) (initState req)).1).agent_responses _ =
      collectResponses specs [] _
    rw [hpresp]
  have hSc : ((runAgentsLoop specs
      ((makeSupervisorDecision (Except.ok d) req.customer_message).selected_agents).length
      (supervisorNode (Except.ok d) (initState req)).1
      (getNextAgent
        (makeSupervisorDecision (Except.ok d) req.customer_message).selected_agents)).state).can_respond_directly =
      false := by
    rw [hrun.2]; exact hpc
  refine ⟨?_, ?_, hcalls, ?_⟩
  · rw [hfinal, synthesizerNode_responses, hSresp,
      collectResponses_lookup_err specs X e hfail]
    rfl
  · rw [hfinal]
    apply synthesizerNode_messages_mem
    rw [hrun.2]
    exact List.mem_append_right _ (mem_agentMessages_of_err specs X e _ hX hfail)
  · obtain ⟨Y, hYmem, r, hYok⟩ := hY
    have hvalid : (collectResponses specs []
        (makeSupervisorDecision (Except.ok d) req.customer_message).selected_agents).filterMap
          (fun p => p.2.map (fun v => (p.1, v))) ≠ [] := by
      have hl := collectResponses_lookup_ok specs Y r hYok _ hYmem []
      have hmem := mem_of_lookup_eq_some _ _ _ hl
      have hmem2 : (Y, r) ∈ (collectResponses specs []
          (makeSupervisorDecision (Except.ok d) req.customer_message).selected_agents).filterMap
            (fun p => p.2.map (fun v => (p.1, v))) :=
        List.mem_filterMap.mpr ⟨(Y, some r), hmem, rfl⟩
      exact List.ne_nil_of_mem hmem2
    refine ⟨synthesizeResponse synthLLM
      ((runAgentsLoop specs
        ((makeSupervisorDecision (Except.ok d) req.customer_message).selected_agents).length
        (supervisorNode (Except.ok d) (initState req)).1
        (getNextAgent
          (makeSupervisorDecision (Except.ok d) req.customer_message).selected_agents)).state).customer_message
      (collectResponses specs []
        (makeSupervisorDecision (Except.ok d) req.customer_message).selected_agents), ?_, ?_⟩
    · rw [hfinal]
      simp only [synthesizerNode, hSc, Bool.false_and, Bool.false_eq_true, if_false, hSresp]
    · exact synthesizeResponse_ne_empty synthLLM _ _ hvalid (fun s hs => hsynth _ _ s hs)

/-- Witness for the amended C3 at a concrete turn: order management
fails, product recommendation succeeds. -/
theorem specialist_failure_isolation_witness :
    (runTurn
      (Except.ok ⟨"order", false, none,
        ["order_management", "product_recommendation"],
        ["order_management", "product_recommendation"], false, "r"⟩)
      (fun a => if a = "product_recommendation" then Except.ok "Product info"
        else Except.error "boom")
      (fun _ _ => Except.error ())
      ⟨"need help", "s4", none⟩).final.agent_responses.lookup "order_management" = none ∧
    (⟨MsgRole.error, "Failed to call " ++ "order_management" ++ ": " ++ "boom"⟩ : ChatMessage) ∈
      (runTurn
        (Except.ok ⟨"order", false, none,
          ["order_management", "product_recommendation"],
          ["order_management", "product_recommendation"], false, "r"⟩)
        (fun a => if a = "product_recommendation" then Except.ok "Product info"
          else Except.error "boom")
        (fun _ _ => Except.error ())
        ⟨"need help", "s4", none⟩).final.messages ∧
    (runTurn
      (Except.ok ⟨"order", false, none,
        ["order_management", "product_recommendation"],
        ["order_management", "product_recommendation"], false, "r"⟩)
      (fun a => if a = "product_recommendation" then Except.ok "Product info"
        else Except.error "boom")
      (fun _ _ => Except.error ())
      ⟨"need help", "s4", none⟩).calls =
      (makeSupervisorDecision
        (Except.ok ⟨"order", false, none,
          ["order_management", "product_recommendation"],
          ["order_management", "product_recommendation"], false, "r"⟩)
        ("need help" : String)).selected_agents ∧
    ∃ ans, (runTurn
      (Except.ok ⟨"order", false, none,
        ["order_management", "product_recommendation"],
        ["order_management", "product_recommendation"], false, "r"⟩)
      (fun a => if a = "product_recommendation" then Except.ok "Product info"
        else Except.error "boom")
      (fun _ _ => Except.error ())
      ⟨"need help", "s4", none⟩).final.synthesized_response = some ans ∧ ans ≠ "" :=
  specialist_failure_isolation
    ⟨"order", false, none,
      ["order_management", "product_recommendation"],
      ["order_management", "product_recommendation"], false, "r"⟩
    (fun a => if a = "product_recommendation" then Except.ok "Product info"
      else Except.error "boom")
    (fun _ _ => Except.error ())
    ⟨"need help", "s4", none⟩ "order_management" "boom"
    rfl (by decide) rfl
    ⟨"product_recommendation", by decide, "Product info", rfl⟩
    (fun _ _ _ h => nomatch h)

/-! ### Fallback selection policy -/

/-- The `intent_to_agents` table of the legacy graph router
(`supervir_agent_graph.py`, `_select_agents` fallback), including the
dictionary-get default. -/
def intentToAgents (primary_intent : String) : List String :=
  if primary_intent = "order" then ["order_management"]
  else if primary_intent = "product" then ["product_recommendation"]
  else if primary_intent = "troubleshooting" then ["troubleshooting"]
  else if primary_intent = "personalization" then ["personalization"]
  else if primary_intent = "general" then ["order_management"]
  else ["order_management"]

/-- The rule-based fallback of `_select_agents`
(`supervir_agent_graph.py` lines 571-592): intent-based choice, with
`personalization` inserted first when the intent analysis flagged a
customer id, truncated to 3. -/
def selectAgentsFallback (primary_intent : String) (customer_id_mentioned : Bool) :
    List String :=
  let selected := intentToAgents primary_intent
  let selected2 :=
    if customer_id_mentioned && !(selected.contains "personalization") then
      "personalization" :: selected
    else selected
  selected2.take 3

/-- C7 counterexample to the claim as stated: with `customer_id`
explicitly present in the request (`cust001`) and the supervisor Router
taking its fallback path (oracle failure), the selection is exactly
`["order_management"]` — the personalization specialist is not included
at all, let alone first. -/
theorem fallback_personalization_counterexample :
    (runTurn (Except.error ()) (fun _ => Except.ok "ok") (fun _ _ => Except.error ())
      ⟨"I need help with my account", "s5", some "cust001"⟩).final.selected_agents =
      ["order_management"] ∧
    ¬ ("personalization" ∈ (runTurn (Except.error ()) (fun _ => Except.ok "ok")
      (fun _ _ => Except.error ())
      ⟨"I need help with my account", "s5", some "cust001"⟩).final.selected_agents) := by
  refine ⟨?_, ?_⟩ <;> decide

/-- C7 (amended): the supervisor Router's fallback never consults the
request's `customer_id`: it always selects exactly
`["order_management"]`.  The personalization-first bias exists only in
the legacy graph's rule-based `_select_agents` fallback, keyed on the
`customer_id_mentioned` flag of intent analysis (not on the request
field), where `personalization` is indeed placed first. -/
theorem fallback_personalization_amended :
    (∀ msg : String, (fallbackDecision msg).selected_agents = ["order_management"]) ∧
    (∀ pi : String, (selectAgentsFallback pi true).head? = some "personalization") := by
  refine ⟨fun msg => rfl, fun pi => ?_⟩
  unfold selectAgentsFallback intentToAgents
  split_ifs <;> simp_all

/-! ### Response assembly in `process_request` -/

/-- The response dictionary assembled by `process_request`
(`agent.py` lines 843-853), restricted to the fields the claim is about.
Confidence values are exact rationals. -/
structure ResponseData where
  response : String
  agents_called : List String
  confidence_score : ℚ
  follow_up_needed : Bool
deriving Repr, DecidableEq

/-- Success-path response assembly: both `confidence_score` and
`follow_up_needed` read `final_state.get("confidence_score", 0.1)`. -/
def buildResponseData (final_state : GraphState) : ResponseData :=
  { response := final_state.synthesized_response.getD "Unable to process request"
    agents_called := final_state.selected_agents
    confidence_score := final_state.confidence_score.getD (1 / 10)
    follow_up_needed := decide (final_state.confidence_score.getD (1 / 10) < 7 / 10) }

/-- Error-path response assembly (`_handle_error`, `agent.py` lines
1139-1147). -/
def handleErrorResponse (customer_response : String) : ResponseData :=
  { response := customer_response
    agents_called := []
    confidence_score := 1 / 10
    follow_up_needed := true }

/-- C10: on the success path and the error path alike, the returned
`follow_up_needed` flag equals `confidence_score < 0.7`; the error path
always returns confidence 0.1 with `follow_up_needed = true`. -/
theorem followup_confidence_relation :
    (∀ st : GraphState,
      ((buildResponseData st).follow_up_needed = true ↔
        (buildResponseData st).confidence_score < 7 / 10)) ∧
    (∀ err : String,
      (handleErrorResponse err).confidence_score = 1 / 10 ∧
      (handleErrorResponse err).follow_up_needed = true ∧
      ((handleErrorResponse err).follow_up_needed = true ↔
        (handleErrorResponse err).confidence_score < 7 / 10)) := by
  constructor
  · intro st
    simp [buildResponseData]
  · intro err
    refine ⟨rfl, rfl, ?_⟩
    simp only [handleErrorResponse]
    norm_num

/-! ### Checkpoint store (`dynamodb_session_saver.py`) -/

/-- Character-wise lexicographic comparison of character lists, the model
of the DynamoDB sort-key order used for range scans. -/
def listLt : List Char → List Char → Bool
  | [], [] => false
  | [], _ :: _ => true
  | _ :: _, [] => false
  | a :: as, b :: bs => if a < b then true else if b < a then false else listLt as bs

/-- Lexicographic strict order on strings. -/
def strLt (a b : String) : Bool := listLt a.toList b.toList

/-- `a <= b` on strings, as the negation of `b < a`. -/
def strLe (a b : String) : Bool := !(strLt b a)

theorem listLt_irrefl (l : List Char) : listLt l l = false := by
  induction l with
  | nil => rfl
  | cons a as ih => simp [listLt, lt_irrefl, ih]

theorem listLt_trans :
    ∀ {a b c : List Char}, listLt a b = true → listLt b c = true → listLt a c = true
  | [], [], _ :: _, hab, _ => by cases hab
  | [], _ :: _, _ :: _, _, _ => rfl
  | a :: as, b :: bs, c :: cs, hab, hbc => by
      simp only [listLt] at hab hbc ⊢
      by_cases h1 : a < b
      · by_cases h2 : b < c
        · simp [lt_trans h1 h2]
        · by_cases h3 : c < b
          · simp [if_pos h1, if_pos h2, if_neg h2, h3] at hbc
          · have hbc2 : b = c := le_antisymm (not_lt.mp h3) (not_lt.mp h2)
            subst hbc2
            simp [h1]
      · by_cases h1b : b < a
        · simp [if_neg h1, if_pos h1b] at hab
        · have hab2 : a = b := le_antisymm (not_lt.mp h1b) (not_lt.mp h1)
          subst hab2
          simp only [if_neg h1, lt_irrefl, if_neg (lt_irrefl a)] at hab ⊢
          by_cases h2 : a < c
          · simp [h2]
          · by_cases h3 : c < a
            · simp [if_neg h2, if_pos h3] at hbc
            · simp only [if_neg h2, if_neg h3] at hbc ⊢
              exact listLt_trans hab hbc

theorem listLt_connex :
    ∀ {a b : List Char}, a ≠ b → listLt a b = true ∨ listLt b a = true
  | [], [], h => absurd rfl h
  | [], _ :: _, _ => Or.inl rfl
  | _ :: _, [], _ => Or.inr rfl
  | a :: as, b :: bs, h => by
      by_cases h1 : a < b
      · exact Or.inl (by simp [listLt, h1])
      · by_cases h2 : b < a
        · exact Or.inr (by simp [listLt, h2])
        · have hab : a = b := le_antisymm (not_lt.mp h2) (not_lt.mp h1)
          subst hab
          have hne : as ≠ bs := fun hc => h (by rw [hc])
          rcases listLt_connex hne with h3 | h3
          · exact Or.inl (by simp [listLt, lt_irrefl, h3])
          · exact Or.inr (by simp [listLt, lt_irrefl, h3])

theorem listLt_append_left :
    ∀ (p a b : List Char), listLt (p ++ a) (p ++ b) = listLt a b := by
  intro p
  induction p with
  | nil => intro a b; rfl
  | cons c p ih =>
      intro a b
      simp only [List.cons_append, listLt, lt_irrefl, if_neg (lt_irrefl c)]
      exact ih a b

theorem strLt_append_left (p a b : String) :
    strLt (p ++ a) (p ++ b) = strLt a b := by
  show listLt ((p ++ a).data) ((p ++ b).data) = listLt a.data b.data
  rw [String.data_append, String.data_append]
  exact listLt_append_left _ _ _

theorem strLt_irrefl (a : String) : strLt a a = false := listLt_irrefl _

theorem strLt_trans {a b c : String} (h1 : strLt a b = true) (h2 : strLt b c = true) :
    strLt a c = true := listLt_trans h1 h2

theorem strLt_connex {a b : String} (h : a ≠ b) :
    strLt a b = true ∨ strLt b a = true := by
  have hne : a.data ≠ b.data := fun hc => h (String.ext hc)
  exact listLt_connex hne

theorem strLe_total (a b : String) : (strLe a b || strLe b a) = true := by
  by_cases h : strLt b a = true
  · have : strLt a b = false := by
      by_cases h2 : strLt a b = true
      · have := strLt_trans h2 h
        rw [strLt_irrefl] at this
        cases this
      · simpa using h2
    simp [strLe, this]
  · simp [strLe, h]

theorem strLe_trans {a b c : String} (h1 : strLe a b = true) (h2 : strLe b c = true) :
    strLe a c = true := by
  simp only [strLe, Bool.not_eq_true'] at h1 h2 ⊢
  by_contra hc
  have hca : strLt c a = true := by
    cases hx : strLt c a
    · exact absurd hx hc
    · rfl
  have hab : strLt a b = true ∨ a = b := by
    rcases eq_or_ne a b with he | hne
    · exact Or.inr he
    · rcases strLt_connex hne with h3 | h3
      · exact Or.inl h3
      · rw [h3] at h1; cases h1
  have hbc : strLt b c = true ∨ b = c := by
    rcases eq_or_ne b c with he | hne
    · exact Or.inr he
    · rcases strLt_connex hne with h3 | h3
      · exact Or.inl h3
      · rw [h3] at h2; cases h2
  rcases hab with hab | rfl
  · rcases hbc with hbc | rfl
    · have := strLt_trans (strLt_trans hab hbc) hca
      rw [strLt_irrefl] at this
      cases this
    · have := strLt_trans hab hca
      rw [strLt_irrefl] at this
      cases this
  · rcases hbc with hbc | rfl
    · have := strLt_trans hbc hca
      rw [strLt_irrefl] at this
      cases this
    · rw [strLt_irrefl] at hca
      cases hca

/-- One stored DynamoDB item, restricted to the fields the listing logic
reads: the sort key (`checkpoint_ns#checkpoint_id`), the deserialized
checkpoint's own `id`, the parsed `metadata` dict, and the parent
pointer. -/
structure CkItem where
  checkpoint_id : String
  ck_id : String
  metadata : List (String × String)
  parent_checkpoint_id : Option String
deriving Repr, DecidableEq

/-- Python truthiness of the `limit` argument (`if limit:`): `None` and
`0` are falsy. -/
def limTruthy : Option Nat → Bool
  | none => false
  | some k => k != 0

/-- One DynamoDB `query` call against the key-ordered item segment:
returns at most `min limit pageSize` items starting at `startIdx` and a
`LastEvaluatedKey` (modelled as the next index) when items remain. -/
def queryPage (sorted : List CkItem) (pageSize : Nat) (startIdx : Nat)
    (lim : Option Nat) : List CkItem × Option Nat :=
  let cap := match lim with
    | none => pageSize
    | some k => min k pageSize
  let page := (sorted.drop startIdx).take cap
  let newIdx := startIdx + page.length
  (page, if newIdx < sorted.length then some newIdx else none)

/-- The `while "LastEvaluatedKey" in response and (not limit or
len(items) < limit)` continuation loop of `list`
(`dynamodb_session_saver.py` lines 307-312), with `Limit` re-set to
`limit - len(items)` on each iteration when `limit` is truthy. -/
def collectGo (sorted : List CkItem) (pageSize : Nat) (limit : Option Nat) :
    Nat → List CkItem → Option Nat → List CkItem
  | _, items, none => items
  | 0, items, some _ => items
  | Nat.succ fuel, items, some idx =>
      if limTruthy limit = false || items.length < limit.getD 0 then
        let lim2 := if limTruthy limit then some (limit.getD 0 - items.length) else none
        let pr := queryPage sorted pageSize idx lim2
        collectGo sorted pageSize limit fuel (items ++ pr.1) pr.2
      else items

/-- The raw item collection of `list`: the initial query (with `Limit`
set only when `limit` is truthy) followed by the continuation loop. -/
def collectItems (sorted : List CkItem) (pageSize : Nat) (limit : Option Nat) :
    List CkItem :=
  let lim0 := if limTruthy limit then limit else none
  let pr := queryPage sorted pageSize 0 lim0
  collectGo sorted pageSize limit sorted.length pr.1 pr.2

/-- The metadata filter: `all(metadata.get(k) == v for k, v in
filter.items())`. -/
def matchesFilter (filter : Option (List (String × String)))
    (md : List (String × String)) : Bool :=
  match filter with
  | none => true
  | some f => f.all (fun kv => md.lookup kv.1 == some kv.2)

/-- The `before` exclusion: skip any item whose sort key is `>=`
`ns#before_checkpoint_id` (no exclusion when the id is missing or
empty). -/
def beforeKeep (ns : String) (before : Option String) (it : CkItem) : Bool :=
  match before with
  | none => true
  | some bid =>
      if bid == "" then true
      else !(strLe (ns ++ "#" ++ bid) it.checkpoint_id)

/-- Key-range restriction of the query:
`Key("checkpoint_id").begins_with(f"{checkpoint_ns}#")`. -/
def nsMatch (ns : String) (it : CkItem) : Bool :=
  (ns ++ "#").toList.isPrefixOf it.checkpoint_id.toList

/-- Insertion into a descending-by-sort-key list. -/
def insertDesc (x : CkItem) : List CkItem → List CkItem
  | [] => [x]
  | y :: rest =>
      if strLe y.checkpoint_id x.checkpoint_id then x :: y :: rest
      else y :: insertDesc x rest

/-- The key-ordered scan: DynamoDB returns a thread's items sorted by
sort key; `ScanIndexForward=False` yields descending order. -/
def sortDesc : List CkItem → List CkItem
  | [] => []
  | x :: rest => insertDesc x (sortDesc rest)

/-- `list` (`dynamodb_session_saver.py` lines 269-358) for one thread:
range-scan the namespace's items newest-first, paginate until `limit`
raw items or exhaustion, then apply the metadata and `before` filters to
the collected page. -/
def listCheckpoints (tbl : List CkItem) (ns : String)
    (filter : Option (List (String × String))) (before : Option String)
    (limit : Option Nat) (pageSize : Nat) : List CkItem :=
  let sorted := sortDesc (tbl.filter (nsMatch ns))
  let items := collectItems sorted pageSize limit
  items.filter (fun it => matchesFilter filter it.metadata && beforeKeep ns before it)

theorem take_append_take_drop {α : Type} (s : List α) (idx cap : Nat) :
    s.take idx ++ (s.drop idx).take cap = s.take (idx + ((s.drop idx).take cap).length) := by
  by_cases hc : cap ≤ s.length - idx
  · have hlen : ((s.drop idx).take cap).length = cap := by
      rw [List.length_take, List.length_drop]
      omega
    rw [hlen, List.take_add]
  · have hlen : ((s.drop idx).take cap).length = s.length - idx := by
      rw [List.length_take, List.length_drop]
      omega
    have htk : (s.drop idx).take cap = s.drop idx :=
      List.take_of_length_le (by rw [List.length_drop]; omega)
    rw [hlen, htk, List.take_append_drop]
    exact (List.take_of_length_le (by omega)).symm

theorem collectGo_none (sorted : List CkItem) (pageSize : Nat) (limit : Option Nat)
    (fuel : Nat) (items : List CkItem) :
    collectGo sorted pageSize limit fuel items none = items := by
  cases fuel <;> rfl

/-- One unfolding of the loop when the continuation guard passes. -/
theorem collectGo_step (sorted : List CkItem) (pageSize : Nat) (limit : Option Nat)
    (fuel : Nat) (items : List CkItem) (idx : Nat)
    (hcond : limTruthy limit = false ∨ items.length < limit.getD 0) :
    collectGo sorted pageSize limit (fuel + 1) items (some idx) =
      collectGo sorted pageSize limit fuel
        (items ++ (queryPage sorted pageSize idx
          (if limTruthy limit then some (limit.getD 0 - items.length) else none)).1)
        (queryPage sorted pageSize idx
          (if limTruthy limit then some (limit.getD 0 - items.length) else none)).2 := by
  simp only [collectGo]
  rw [if_pos]
  rcases hcond with h | h <;> simp [h]

/-- One unfolding of the loop when the guard fails. -/
theorem collectGo_stop (sorted : List CkItem) (pageSize : Nat) (limit : Option Nat)
    (fuel : Nat) (items : List CkItem) (idx : Nat)
    (hT : limTruthy limit = true) (hcond : ¬ items.length < limit.getD 0) :
    collectGo sorted pageSize limit (fuel + 1) items (some idx) = items := by
  simp only [collectGo]
  rw [if_neg]
  simp [hT, hcond]

/-- The continuation loop keeps querying past page boundaries: started at
raw position `idx` it always ends holding `take limit` of the sorted raw
items (or all of them when no truthy limit is given).  The limit counts
raw items, before any filtering. -/
theorem collectGo_spec (sorted : List CkItem) (pageSize : Nat) (limit : Option Nat)
    (hps : 0 < pageSize) :
    ∀ (fuel idx : Nat), idx < sorted.length → sorted.length - idx ≤ fuel →
    (limTruthy limit = true → idx ≤ limit.getD 0) →
    collectGo sorted pageSize limit fuel (sorted.take idx) (some idx) =
      (if limTruthy limit then sorted.take (limit.getD 0) else sorted) := by
  intro fuel
  induction fuel with
  | zero => intro idx hidx hfuel hlim; omega
  | succ fuel ih =>
      intro idx hidx hfuel hlim
      have hlen : (sorted.take idx).length = idx := by
        rw [List.length_take]; omega
      by_cases hT : limTruthy limit = true
      · by_cases hguard : idx < limit.getD 0
        · rw [collectGo_step sorted pageSize limit fuel (sorted.take idx) idx (Or.inr (by omega))]
          rw [if_pos hT, hlen]
          have hq1 : (queryPage sorted pageSize idx (some (limit.getD 0 - idx))).1 =
              (sorted.drop idx).take (min (limit.getD 0 - idx) pageSize) := rfl
          have hq2 : (queryPage sorted pageSize idx (some (limit.getD 0 - idx))).2 =
              (if idx + ((sorted.drop idx).take (min (limit.getD 0 - idx) pageSize)).length <
                  sorted.length then
                some (idx + ((sorted.drop idx).take (min (limit.getD 0 - idx) pageSize)).length)
              else none) := rfl
          rw [hq1, hq2, take_append_take_drop]
          have hple : ((sorted.drop idx).take (min (limit.getD 0 - idx) pageSize)).length ≤
              limit.getD 0 - idx := by
            rw [List.length_take]
            exact le_trans (min_le_left _ _) (min_le_left _ _)
          have hple2 : ((sorted.drop idx).take (min (limit.getD 0 - idx) pageSize)).length ≤
              sorted.length - idx := by
            rw [List.length_take, List.length_drop]
            exact min_le_right _ _
          have hpge : 1 ≤ ((sorted.drop idx).take (min (limit.getD 0 - idx) pageSize)).length := by
            rw [List.length_take, List.length_drop]
            refine le_min (le_min (by omega) hps) (by omega)
          by_cases hni : idx + ((sorted.drop idx).take (min (limit.getD 0 - idx) pageSize)).length <
              sorted.length
          · rw [if_pos hni]
            rw [ih (idx + ((sorted.drop idx).take (min (limit.getD 0 - idx) pageSize)).length)
              hni (by omega) (by intro _; omega)]
          · rw [if_neg hni]
            have hend : idx + ((sorted.drop idx).take (min (limit.getD 0 - idx) pageSize)).length =
                sorted.length := by omega
            rw [hend, List.take_of_length_le (le_refl _), if_pos hT,
              List.take_of_length_le (by omega)]
            exact collectGo_none sorted pageSize limit fuel sorted
        · have hle := hlim hT
          rw [collectGo_stop sorted pageSize limit fuel (sorted.take idx) idx hT (by omega)]
          rw [if_pos hT]
          have heq : idx = limit.getD 0 := by omega
          rw [heq]
      · have hT2 : limTruthy limit = false := by simpa using hT
        rw [collectGo_step sorted pageSize limit fuel (sorted.take idx) idx (Or.inl hT2)]
        rw [hT2]
        simp only [Bool.false_eq_true, if_false]
        have hq1 : (queryPage sorted pageSize idx none).1 =
            (sorted.drop idx).take pageSize := rfl
        have hq2 : (queryPage sorted pageSize idx none).2 =
            (if idx + ((sorted.drop idx).take pageSize).length < sorted.length then
              some (idx + ((sorted.drop idx).take pageSize).length)
            else none) := rfl
        rw [hq1, hq2, take_append_take_drop]
        have hple2 : ((sorted.drop idx).take pageSize).length ≤ sorted.length - idx := by
          rw [List.length_take, List.length_drop]
          exact min_le_right _ _
        have hpge : 1 ≤ ((sorted.drop idx).take pageSize).length := by
          rw [List.length_take, List.length_drop]
          exact le_min hps (by omega)
        by_cases hni : idx + ((sorted.drop idx).take pageSize).length < sorted.length
        · rw [if_pos hni]
          rw [ih (idx + ((sorted.drop idx).take pageSize).length) hni (by omega)
            (by intro hx; rw [hx] at hT2; cases hT2)]
          rw [hT2]
          simp only [Bool.false_eq_true, if_false]
        · rw [if_neg hni]
          have hend : idx + ((sorted.drop idx).take pageSize).length = sorted.length := by
            omega
          rw [hend, List.take_of_length_le (le_refl _)]
          exact collectGo_none sorted pageSize limit fuel sorted

/-- Raw collection result: exactly the first `limit` items of the
descending scan (all of them without a truthy limit). -/
theorem collectItems_take (sorted : List CkItem) (pageSize : Nat) (limit : Option Nat)
    (hps : 0 < pageSize) :
    collectItems sorted pageSize limit =
      (if limTruthy limit then sorted.take (limit.getD 0) else sorted) := by
  show collectGo sorted pageSize limit sorted.length
      (queryPage sorted pageSize 0 (if limTruthy limit then limit else none)).1
      (queryPage sorted pageSize 0 (if limTruthy limit then limit else none)).2 =
    (if limTruthy limit then sorted.take (limit.getD 0) else sorted)
  by_cases hT : limTruthy limit = true
  · have hcap : (if limTruthy limit then limit else none) = some (limit.getD 0) := by
      cases limit with
      | none => cases hT
      | some k => rw [if_pos hT]; rfl
    rw [hcap]
    have hq1 : (queryPage sorted pageSize 0 (some (limit.getD 0))).1 =
        sorted.take (min (limit.getD 0) pageSize) := by
      show (sorted.drop 0).take _ = _
      rw [List.drop_zero]
    have hq2 : (queryPage sorted pageSize 0 (some (limit.getD 0))).2 =
        (if 0 + ((sorted.drop 0).take (min (limit.getD 0) pageSize)).length < sorted.length then
          some (0 + ((sorted.drop 0).take (min (limit.getD 0) pageSize)).length)
        else none) := rfl
    rw [hq1, hq2]
    simp only [List.drop_zero, Nat.zero_add]
    have hpage : sorted.take (min (limit.getD 0) pageSize) =
        sorted.take ((sorted.take (min (limit.getD 0) pageSize)).length) := by
      have h0 := take_append_take_drop sorted 0 (min (limit.getD 0) pageSize)
      simp only [List.take_zero, List.drop_zero, List.nil_append, Nat.zero_add] at h0
      exact h0
    have hple : (sorted.take (min (limit.getD 0) pageSize)).length ≤ limit.getD 0 := by
      rw [List.length_take]
      exact le_trans (min_le_left _ _) (min_le_left _ _)
    by_cases hni : (sorted.take (min (limit.getD 0) pageSize)).length < sorted.length
    · rw [if_pos hni]
      have hgo := collectGo_spec sorted pageSize limit hps sorted.length
        ((sorted.take (min (limit.getD 0) pageSize)).length) hni (by omega)
        (by intro _; omega)
      rw [← hpage] at hgo
      rw [hgo, if_pos hT]
    · rw [if_neg hni]
      have hlen2 : (sorted.take (min (limit.getD 0) pageSize)).length =
          min (min (limit.getD 0) pageSize) sorted.length := List.length_take _ _
      have h1 : min (min (limit.getD 0) pageSize) sorted.length ≤ sorted.length :=
        min_le_right _ _
      have h2 : min (min (limit.getD 0) pageSize) sorted.length ≤ min (limit.getD 0) pageSize :=
        min_le_left _ _
      have h3 : min (limit.getD 0) pageSize ≤ limit.getD 0 := min_le_left _ _
      rw [List.take_of_length_le (by omega), if_pos hT, List.take_of_length_le (by omega)]
      exact collectGo_none sorted pageSize limit sorted.length sorted
  · have hT2 : limTruthy limit = false := by
      cases hx : limTruthy limit
      · rfl
      · exact absurd hx hT
    rw [hT2]
    simp only [Bool.false_eq_true, if_false]
    have hq1 : (queryPage sorted pageSize 0 none).1 = sorted.take pageSize := by
      show (sorted.drop 0).take _ = _
      rw [List.drop_zero]
    have hq2 : (queryPage sorted pageSize 0 none).2 =
        (if 0 + ((sorted.drop 0).take pageSize).length < sorted.length then
          some (0 + ((sorted.drop 0).take pageSize).length)
        else none) := rfl
    rw [hq1, hq2]
    simp only [List.drop_zero, Nat.zero_add]
    have hpage : sorted.take pageSize =
        sorted.take ((sorted.take pageSize).length) := by
      have h0 := take_append_take_drop sorted 0 pageSize
      simp only [List.take_zero, List.drop_zero, List.nil_append, Nat.zero_add] at h0
      exact h0
    by_cases hni : (sorted.take pageSize).length < sorted.length
    · rw [if_pos hni]
      have hgo := collectGo_spec sorted pageSize limit hps sorted.length
        ((sorted.take pageSize).length) hni (by omega)
        (by intro hx; rw [hx] at hT2; cases hT2)
      rw [← hpage] at hgo
      rw [hgo, hT2]
      simp only [Bool.false_eq_true, if_false]
    · rw [if_neg hni]
      have hlen2 : (sorted.take pageSize).length = min pageSize sorted.length :=
        List.length_take _ _
      have h1 : min pageSize sorted.length ≤ sorted.length := min_le_right _ _
      rw [List.take_of_length_le (by omega)]
      exact collectGo_none sorted pageSize limit sorted.length sorted

theorem mem_insertDesc {x z : CkItem} : ∀ {l : List CkItem},
    z ∈ insertDesc x l ↔ z = x ∨ z ∈ l := by
  intro l
  induction l with
  | nil => simp [insertDesc]
  | cons y rest ih =>
      simp only [insertDesc]
      split
      · simp [List.mem_cons]
      · rw [List.mem_cons, ih, List.mem_cons]
        tauto

theorem insertDesc_perm (x : CkItem) : ∀ (l : List CkItem),
    (insertDesc x l).Perm (x :: l) := by
  intro l
  induction l with
  | nil => exact List.Perm.refl _
  | cons y rest ih =>
      simp only [insertDesc]
      split
      · exact List.Perm.refl _
      · exact List.Perm.trans (List.Perm.cons y ih) (List.Perm.swap x y rest)

theorem sortDesc_perm : ∀ (l : List CkItem), (sortDesc l).Perm l := by
  intro l
  induction l with
  | nil => exact List.Perm.refl _
  | cons x rest ih =>
      exact List.Perm.trans (insertDesc_perm x (sortDesc rest)) (List.Perm.cons x ih)

theorem pairwise_insertDesc (x : CkItem) : ∀ (l : List CkItem),
    List.Pairwise (fun a b => strLe b.checkpoint_id a.checkpoint_id = true) l →
    List.Pairwise (fun a b => strLe b.checkpoint_id a.checkpoint_id = true)
      (insertDesc x l) := by
  intro l
  induction l with
  | nil => intro _; simp [insertDesc]
  | cons y rest ih =>
      intro h
      rw [List.pairwise_cons] at h
      simp only [insertDesc]
      split
      · rename_i hle
        rw [List.pairwise_cons]
        refine ⟨?_, List.pairwise_cons.mpr h⟩
        intro z hz
        rcases List.mem_cons.mp hz with h1 | h1
        · exact h1 ▸ hle
        · exact strLe_trans (h.1 z h1) hle
      · rename_i hnle
        rw [List.pairwise_cons]
        refine ⟨?_, ih h.2⟩
        intro z hz
        rcases mem_insertDesc.mp hz with h1 | h1
        · rw [h1]
          have htot := strLe_total y.checkpoint_id x.checkpoint_id
          rcases Bool.or_eq_true_iff.mp htot with h2 | h2
          · exact absurd h2 hnle
          · exact h2
        · exact h.1 z h1

theorem sortDesc_sorted (l : List CkItem) :
    List.Pairwise (fun a b => strLe b.checkpoint_id a.checkpoint_id = true) (sortDesc l) := by
  induction l with
  | nil => exact List.Pairwise.nil
  | cons x rest ih => exact pairwise_insertDesc x (sortDesc rest) ih

theorem mem_sortDesc {l : List CkItem} {it : CkItem} (h : it ∈ sortDesc l) : it ∈ l :=
  (sortDesc_perm l).subset h

theorem nodup_keys_sortDesc {l : List CkItem}
    (h : (l.map (fun it => it.checkpoint_id)).Nodup) :
    ((sortDesc l).map (fun it => it.checkpoint_id)).Nodup :=
  (((sortDesc_perm l).map _).nodup_iff).mpr h

theorem mem_of_mem_collectItems {sorted : List CkItem} {pageSize : Nat}
    {limit : Option Nat} (hps : 0 < pageSize) {it : CkItem}
    (h : it ∈ collectItems sorted pageSize limit) : it ∈ sorted := by
  rw [collectItems_take sorted pageSize limit hps] at h
  by_cases hT : limTruthy limit = true
  · rw [if_pos hT] at h
    exact List.mem_of_mem_take h
  · rw [if_neg hT] at h
    exact h

theorem collectItems_sublist (sorted : List CkItem) (pageSize : Nat)
    (limit : Option Nat) (hps : 0 < pageSize) :
    (collectItems sorted pageSize limit).Sublist sorted := by
  rw [collectItems_take sorted pageSize limit hps]
  by_cases hT : limTruthy limit = true
  · rw [if_pos hT]
    exact List.take_sublist _ _
  · rw [if_neg hT]

/-- Every listed item is a stored item of the queried namespace. -/
theorem mem_of_mem_listCheckpoints {tbl : List CkItem} {ns : String}
    {filter : Option (List (String × String))} {before : Option String}
    {limit : Option Nat} {pageSize : Nat} (hps : 0 < pageSize) {it : CkItem}
    (h : it ∈ listCheckpoints tbl ns filter before limit pageSize) :
    it ∈ tbl ∧ nsMatch ns it = true := by
  have h1 := List.mem_of_mem_filter h
  have h2 := mem_of_mem_collectItems hps h1
  have h3 := mem_sortDesc h2
  exact ⟨List.mem_of_mem_filter h3, List.of_mem_filter h3⟩

/-- C5 (amended): the listing returns checkpoints in strictly descending
`id` order, every returned checkpoint matches the metadata filter, and
none reaches the `before` bound; the pagination loop does continue past
page boundaries, but `limit` caps the raw scanned items *before*
filtering, so with a metadata or `before` filter the result may hold
fewer than `limit` checkpoints even though more matching history exists;
without filters the full continuation guarantee holds. -/
theorem list_checkpoints_amended (tbl : List CkItem) (ns : String)
    (filter : Option (List (String × String))) (before : Option String)
    (limit : Option Nat) (pageSize : Nat)
    (hps : 0 < pageSize)
    (hwf : ∀ it ∈ tbl, nsMatch ns it = true →
      it.checkpoint_id = (ns ++ "#") ++ it.ck_id)
    (hnd : (tbl.map (fun it => it.checkpoint_id)).Nodup) :
    List.Pairwise (fun a b => strLt b.ck_id a.ck_id = true)
      (listCheckpoints tbl ns filter before limit pageSize) ∧
    (∀ it ∈ listCheckpoints tbl ns filter before limit pageSize,
      matchesFilter filter it.metadata = true) ∧
    (∀ it ∈ listCheckpoints tbl ns filter before limit pageSize,
      ∀ bid, before = some bid → bid ≠ "" → strLt it.ck_id bid = true) ∧
    collectItems (sortDesc (tbl.filter (nsMatch ns))) pageSize limit =
      (if limTruthy limit then (sortDesc (tbl.filter (nsMatch ns))).take (limit.getD 0)
        else sortDesc (tbl.filter (nsMatch ns))) ∧
    (filter = none → before = none →
      listCheckpoints tbl ns filter before limit pageSize =
        collectItems (sortDesc (tbl.filter (nsMatch ns))) pageSize limit) := by
  have hndF : ((tbl.filter (nsMatch ns)).map (fun it => it.checkpoint_id)).Nodup :=
    List.Nodup.sublist (List.Sublist.map _ (List.filter_sublist tbl)) hnd
  have hsorted := sortDesc_sorted (tbl.filter (nsMatch ns))
  have hndS := nodup_keys_sortDesc hndF
  have hneS : List.Pairwise (fun a b => a.checkpoint_id ≠ b.checkpoint_id)
      (sortDesc (tbl.filter (nsMatch ns))) :=
    (List.pairwise_map).mp hndS
  have hcomb := hsorted.and hneS
  have hsubl : (listCheckpoints tbl ns filter before limit pageSize).Sublist
      (sortDesc (tbl.filter (nsMatch ns))) :=
    List.Sublist.trans (List.filter_sublist _)
      (collectItems_sublist _ pageSize limit hps)
  have hcombR := hcomb.sublist hsubl
  refine ⟨?_, ?_, ?_, collectItems_take _ _ _ hps, ?_⟩
  · refine hcombR.imp_of_mem ?_
    intro a b ha hb hab
    have hwa := (mem_of_mem_listCheckpoints hps ha)
    have hwb := (mem_of_mem_listCheckpoints hps hb)
    have hka := hwf a hwa.1 hwa.2
    have hkb := hwf b hwb.1 hwb.2
    have hlt : strLt b.checkpoint_id a.checkpoint_id = true := by
      rcases strLt_connex (fun hc => hab.2 hc.symm) with h1 | h1
      · exact h1
      · have := hab.1
        simp only [strLe, h1] at this
        cases this
    rw [hka, hkb, strLt_append_left] at hlt
    exact hlt
  · intro it hit
    have hboth := List.of_mem_filter hit
    rw [Bool.and_eq_true] at hboth
    exact hboth.1
  · intro it hit bid hbid hbne
    have hmem := mem_of_mem_listCheckpoints hps hit
    have hboth := List.of_mem_filter hit
    rw [Bool.and_eq_true] at hboth
    have hkeep := hboth.2
    rw [hbid] at hkeep
    simp only [beforeKeep] at hkeep
    rw [if_neg (by simp [hbne])] at hkeep
    have hlt : strLt it.checkpoint_id (ns ++ "#" ++ bid) = true := by
      simp only [strLe, Bool.not_not] at hkeep
      exact hkeep
    have hk := hwf it hmem.1 hmem.2
    rw [hk] at hlt
    have : (ns ++ "#") ++ bid = ns ++ "#" ++ bid := rfl
    rw [← this, strLt_append_left] at hlt
    exact hlt
  · intro hf hb
    subst hf
    subst hb
    show List.filter _ (collectItems _ _ _) = _
    rw [List.filter_eq_self.mpr]
    intro a _
    rfl

/-- C5 counterexample to the claim as stated: with a metadata filter and
`limit = 1`, the scan stops after one raw item even though an older
matching checkpoint exists — fewer than `limit` results are returned
while matching history remains unlisted. -/
theorem list_limit_filter_counterexample :
    listCheckpoints
      [⟨"ns#01", "01", [("step", "a")], none⟩, ⟨"ns#02", "02", [("step", "b")], some "01"⟩]
      "ns" (some [("step", "a")]) none (some 1) 10 = [] ∧
    (⟨"ns#01", "01", [("step", "a")], none⟩ : CkItem) ∈
      ([⟨"ns#01", "01", [("step", "a")], none⟩,
        ⟨"ns#02", "02", [("step", "b")], some "01"⟩] : List CkItem) ∧
    nsMatch "ns" ⟨"ns#01", "01", [("step", "a")], none⟩ = true ∧
    matchesFilter (some [("step", "a")]) [("step", "a")] = true := by
  refine ⟨?_, ?_, ?_, ?_⟩ <;> decide

/-- Witness for the amended C5 at a concrete two-checkpoint history with
page size 1 (forcing a page-boundary continuation) and no filters. -/
theorem list_checkpoints_amended_witness :
    List.Pairwise (fun a b => strLt b.ck_id a.ck_id = true)
      (listCheckpoints
        [⟨"ns#01", "01", [("s", "1")], none⟩, ⟨"ns#02", "02", [("s", "1")], some "01"⟩]
        "ns" none none none 1) ∧
    (∀ it ∈ listCheckpoints
        [⟨"ns#01", "01", [("s", "1")], none⟩, ⟨"ns#02", "02", [("s", "1")], some "01"⟩]
        "ns" none none none 1,
      matchesFilter none it.metadata = true) ∧
    (∀ it ∈ listCheckpoints
        [⟨"ns#01", "01", [("s", "1")], none⟩, ⟨"ns#02", "02", [("s", "1")], some "01"⟩]
        "ns" none none none 1,
      ∀ bid, (none : Option String) = some bid → bid ≠ "" → strLt it.ck_id bid = true) ∧
    collectItems (sortDesc (List.filter (nsMatch "ns")
        [⟨"ns#01", "01", [("s", "1")], none⟩, ⟨"ns#02", "02", [("s", "1")], some "01"⟩]))
        1 none =
      (if limTruthy none then
        (sortDesc (List.filter (nsMatch "ns")
          [⟨"ns#01", "01", [("s", "1")], none⟩,
            ⟨"ns#02", "02", [("s", "1")], some "01"⟩])).take ((none : Option Nat).getD 0)
       else sortDesc (List.filter (nsMatch "ns")
          [⟨"ns#01", "01", [("s", "1")], none⟩,
            ⟨"ns#02", "02", [("s", "1")], some "01"⟩])) ∧
    ((none : Option (List (String × String))) = none → (none : Option String) = none →
      listCheckpoints
        [⟨"ns#01", "01", [("s", "1")], none⟩, ⟨"ns#02", "02", [("s", "1")], some "01"⟩]
        "ns" none none none 1 =
      collectItems (sortDesc (List.filter (nsMatch "ns")
        [⟨"ns#01", "01", [("s", "1")], none⟩, ⟨"ns#02", "02", [("s", "1")], some "01"⟩]))
        1 none) :=
  list_checkpoints_amended
    [⟨"ns#01", "01", [("s", "1")], none⟩, ⟨"ns#02", "02", [("s", "1")], some "01"⟩]
    "ns" none none none 1 (by decide) (by decide) (by decide)

/-! ### `put` and the DynamoDB key scheme -/

/-- The composite DynamoDB primary key: partition key `thread_id`, sort
key `checkpoint_ns#checkpoint_id`. -/
structure DynamoKey where
  thread_id : String
  checkpoint_id : String
deriving Repr, DecidableEq

/-- `_create_key` (`dynamodb_session_saver.py` lines 155-162). -/
def createKey (thread_id checkpoint_ns checkpoint_id : String) : DynamoKey :=
  ⟨thread_id, checkpoint_ns ++ "#" ++ checkpoint_id⟩

/-- DynamoDB `put_item` semantics on a keyed table: an unconditional put
replaces the item stored under the same primary key, otherwise inserts. -/
def putItem (tbl : List (DynamoKey × String)) (k : DynamoKey) (v : String) :
    List (DynamoKey × String) :=
  if tbl.any (fun p => p.1 = k) then
    tbl.map (fun p => if p.1 = k then (k, v) else p)
  else
    tbl ++ [(k, v)]

/-- DynamoDB `get_item` on the table model. -/
def getItem (tbl : List (DynamoKey × String)) (k : DynamoKey) : Option String :=
  (tbl.find? (fun p => decide (p.1 = k))).map (fun p => p.2)

/-- `put` (`dynamodb_session_saver.py` lines 166-219): builds the
composite key and issues an unconditional `put_item`; a `ClientError`
(modelled by `fault`) is re-raised as the write error, and nothing else
fails.  The serialized item payload is opaque here. -/
def putCheckpoint (fault : Bool) (tbl : List (DynamoKey × String))
    (thread_id checkpoint_ns checkpoint_id : String) (content : String) :
    Except String (List (DynamoKey × String)) :=
  if fault then Except.error "Failed to save checkpoint"
  else Except.ok (putItem tbl (createKey thread_id checkpoint_ns checkpoint_id) content)

theorem getItem_putItem_self (tbl : List (DynamoKey × String)) (k : DynamoKey)
    (v : String) : getItem (putItem tbl k v) k = some v := by
  by_cases hany : tbl.any (fun p => p.1 = k) = true
  · simp only [putItem, hany, if_pos]
    induction tbl with
    | nil => simp at hany
    | cons p rest ih =>
        by_cases hp : p.1 = k
        · simp only [List.map_cons, if_pos hp, getItem]
          rw [List.find?_cons_of_pos _ (by simp)]
          rfl
        · have hrest : rest.any (fun q => q.1 = k) = true := by
            simpa [List.any_cons, hp] using hany
          simp only [List.map_cons, if_neg hp, getItem]
          rw [List.find?_cons_of_neg _ (by simp [hp])]
          exact ih hrest
  · have hf : tbl.any (fun p => p.1 = k) = false := by
      cases hx : tbl.any (fun p => p.1 = k)
      · rfl
      · exact absurd hx hany
    simp only [putItem, hf, Bool.false_eq_true, if_false]
    clear hany
    induction tbl with
    | nil =>
        simp only [List.nil_append, getItem]
        rw [List.find?_cons_of_pos _ (by simp)]
        rfl
    | cons p rest ih =>
        have hp : (p.1 = k) = False := by
          simp only [eq_iff_iff, iff_false]
          intro hc
          simp [List.any_cons, hc] at hf
        have hrest : rest.any (fun q => q.1 = k) = false := by
          cases hx : rest.any (fun q => q.1 = k)
          · rfl
          · simp [List.any_cons, hx] at hf
        simp only [List.cons_append, getItem]
        rw [List.find?_cons_of_neg _ (by simp [hp])]
        exact ih hrest

theorem keys_putItem_of_any (tbl : List (DynamoKey × String)) (k : DynamoKey)
    (v : String) (hany : tbl.any (fun p => p.1 = k) = true) :
    (putItem tbl k v).map Prod.fst = tbl.map Prod.fst := by
  simp only [putItem, hany, if_pos, List.map_map]
  apply List.map_congr_left
  intro p _
  by_cases hp : p.1 = k
  · simp [hp]
  · simp [hp]

theorem nodup_keys_putItem (tbl : List (DynamoKey × String)) (k : DynamoKey)
    (v : String) (hnd : (tbl.map Prod.fst).Nodup) :
    ((putItem tbl k v).map Prod.fst).Nodup := by
  by_cases hany : tbl.any (fun p => p.1 = k) = true
  · rw [keys_putItem_of_any tbl k v hany]
    exact hnd
  · have hf : tbl.any (fun p => p.1 = k) = false := by
      cases hx : tbl.any (fun p => p.1 = k)
      · rfl
      · exact absurd hx hany
    simp only [putItem, hf, Bool.false_eq_true, if_false, List.map_append]
    rw [List.nodup_append]
    refine ⟨hnd, List.nodup_singleton _, ?_⟩
    intro x hx hx2
    simp only [List.map_cons, List.map_nil, List.mem_singleton] at hx2
    subst hx2
    rcases List.mem_map.mp hx with ⟨p, hpmem, hpk⟩
    have := (List.any_eq_false).mp hf p hpmem
    simp [hpk] at this

theorem putItem_idem (tbl : List (DynamoKey × String)) (k : DynamoKey) (v : String) :
    putItem (putItem tbl k v) k v = putItem tbl k v := by
  by_cases hany : tbl.any (fun p => p.1 = k) = true
  · have h1 : putItem tbl k v = tbl.map (fun p => if p.1 = k then (k, v) else p) := by
      simp [putItem, hany]
    have hany2 : (putItem tbl k v).any (fun p => p.1 = k) = true := by
      rw [h1]
      rcases List.any_eq_true.mp hany with ⟨p, hpmem, hpk⟩
      apply List.any_eq_true.mpr
      refine ⟨if p.1 = k then (k, v) else p, List.mem_map_of_mem _ hpmem, ?_⟩
      simp only [decide_eq_true_eq] at hpk
      simp [hpk]
    rw [putItem, if_pos hany2, h1, List.map_map]
    apply List.map_congr_left
    intro p _
    by_cases hp : p.1 = k
    · simp [hp]
    · simp [hp]
  · have hf : tbl.any (fun p => p.1 = k) = false := by
      cases hx : tbl.any (fun p => p.1 = k)
      · rfl
      · exact absurd hx hany
    have h1 : putItem tbl k v = tbl ++ [(k, v)] := by
      simp [putItem, hf]
    have hany2 : (putItem tbl k v).any (fun p => p.1 = k) = true := by
      rw [h1]
      apply List.any_eq_true.mpr
      exact ⟨(k, v), List.mem_append_right _ (List.mem_singleton.mpr rfl), by simp⟩
    rw [putItem, if_pos hany2, h1, List.map_append]
    congr 1
    · have hmapid : List.map (fun p => if p.1 = k then (k, v) else p) tbl =
          List.map id tbl := by
        apply List.map_congr_left
        intro p hp
        have := (List.any_eq_false).mp hf p hp
        simp only [decide_eq_true_eq] at this
        simp [this]
      rw [hmapid, List.map_id]
    · simp

theorem append_sep_inj :
    ∀ (a : List Char) (x : List Char) (b : List Char) (y : List Char),
    '#' ∉ a → '#' ∉ b → a ++ '#' :: x = b ++ '#' :: y → a = b ∧ x = y := by
  intro a
  induction a with
  | nil =>
      intro x b y _ hb h
      cases b with
      | nil => simpa using h
      | cons d b2 =>
          simp only [List.nil_append, List.cons_append, List.cons.injEq] at h
          exact absurd
            (show ('#' : Char) ∈ d :: b2 by rw [h.1]; exact List.mem_cons_self _ _) hb
  | cons c a2 ih =>
      intro x b y ha hb h
      cases b with
      | nil =>
          simp only [List.cons_append, List.nil_append, List.cons.injEq] at h
          exact absurd
            (show ('#' : Char) ∈ c :: a2 by rw [h.1]; exact List.mem_cons_self _ _) ha
      | cons d b2 =>
          simp only [List.cons_append, List.cons.injEq] at h
          have ha2 : '#' ∉ a2 := fun hc => ha (List.mem_cons_of_mem c hc)
          have hb2 : '#' ∉ b2 := fun hc => hb (List.mem_cons_of_mem d hc)
          rcases ih x b2 y ha2 hb2 h.2 with ⟨he1, he2⟩
          exact ⟨by rw [h.1, he1], he2⟩

/-- With namespaces free of the separator character, the composite key
determines `(thread_id, namespace, checkpoint_id)` uniquely. -/
theorem createKey_inj (t1 t2 ns1 ns2 id1 id2 : String)
    (h1 : '#' ∉ ns1.data) (h2 : '#' ∉ ns2.data)
    (h : createKey t1 ns1 id1 = createKey t2 ns2 id2) :
    t1 = t2 ∧ ns1 = ns2 ∧ id1 = id2 := by
  have ht : t1 = t2 := congrArg DynamoKey.thread_id h
  have hs : ns1 ++ "#" ++ id1 = ns2 ++ "#" ++ id2 :=
    congrArg DynamoKey.checkpoint_id h
  have hdata : ns1.data ++ '#' :: id1.data = ns2.data ++ '#' :: id2.data := by
    have := congrArg String.data hs
    simpa [String.data_append] using this
  rcases append_sep_inj ns1.data id1.data ns2.data id2.data h1 h2 hdata with ⟨ha, hb⟩
  exact ⟨ht, String.ext ha, String.ext hb⟩

/-- C8 counterexample to the claim as stated: a `Put` to a key that
already holds a checkpoint succeeds without any error and silently
replaces the stored content with different content. -/
theorem put_silent_overwrite_counterexample :
    putCheckpoint false [(createKey "t1" "ns" "ck1", "content-A")]
      "t1" "ns" "ck1" "content-B" =
      Except.ok [(createKey "t1" "ns" "ck1", "content-B")] ∧
    getItem [(createKey "t1" "ns" "ck1", "content-B")] (createKey "t1" "ns" "ck1") =
      some "content-B" ∧
    ("content-A" : String) ≠ "content-B" := by
  refine ⟨rfl, ?_, ?_⟩ <;> decide

/-- C8 (amended): the storage key is unique per
`(thread_id, namespace, checkpoint_id)` (for separator-free namespaces)
and a `Put` fails only on a transport/storage fault — but a `Put` to an
occupied key silently replaces the stored content, last-writer-wins;
re-writing identical content is a no-op. -/
theorem put_overwrite_semantics :
    (∀ (fault : Bool) (tbl : List (DynamoKey × String)) (t ns id content : String),
      (∃ e, putCheckpoint fault tbl t ns id content = Except.error e) ↔ fault = true) ∧
    (∀ (tbl : List (DynamoKey × String)) (k : DynamoKey) (v : String),
      (tbl.map Prod.fst).Nodup → ((putItem tbl k v).map Prod.fst).Nodup) ∧
    (∀ (tbl : List (DynamoKey × String)) (k : DynamoKey) (v : String),
      getItem (putItem tbl k v) k = some v) ∧
    (∀ (tbl : List (DynamoKey × String)) (k : DynamoKey) (v : String),
      putItem (putItem tbl k v) k v = putItem tbl k v) ∧
    (∀ (t1 t2 ns1 ns2 id1 id2 : String), '#' ∉ ns1.data → '#' ∉ ns2.data →
      createKey t1 ns1 id1 = createKey t2 ns2 id2 →
      t1 = t2 ∧ ns1 = ns2 ∧ id1 = id2) := by
  refine ⟨?_, nodup_keys_putItem, getItem_putItem_self, putItem_idem, createKey_inj⟩
  intro fault tbl t ns id content
  constructor
  · rintro ⟨e, he⟩
    cases fault with
    | false => simp [putCheckpoint] at he
    | true => rfl
  · intro hf
    subst hf
    exact ⟨"Failed to save checkpoint", rfl⟩

/-- Witness for the amended C8 at concrete keys and contents. -/
theorem put_overwrite_semantics_witness :
    ((putItem [(createKey "t" "ns" "01", "A")] (createKey "t" "ns" "01") "B").map
      Prod.fst).Nodup ∧
    getItem (putItem [(createKey "t" "ns" "01", "A")] (createKey "t" "ns" "01") "B")
      (createKey "t" "ns" "01") = some "B" ∧
    (("t" : String) = "t" ∧ ("ns" : String) = "ns" ∧ ("01" : String) = "01") :=
  ⟨put_overwrite_semantics.2.1 [(createKey "t" "ns" "01", "A")]
      (createKey "t" "ns" "01") "B" (by decide),
    put_overwrite_semantics.2.2.1 [(createKey "t" "ns" "01", "A")]
      (createKey "t" "ns" "01") "B",
    put_overwrite_semantics.2.2.2.2 "t" "t" "ns" "ns" "01" "01"
      (by decide) (by decide) rfl⟩

/-! ### The Base64Serializer codec

`Base64Serializer.dumps` is `base64.b64encode(pickle.dumps(obj))` and
`loads` is `pickle.loads(base64.b64decode(data))`
(`dynamodb_session_saver.py` lines 39-48).  Base64 is embedded exactly
(RFC 4648 alphabet with padding).  `pickle` is the Python standard
library, not part of this repository; its model below is a
self-describing tag-length-value binary codec.  -/

/-- Model of the Python values stored in orchestration state: `None`,
booleans, integers, strings, and arbitrarily nested lists and
string-keyed dicts. -/
inductive PyObj where
  | pynone
  | pybool (b : Bool)
  | pyint (n : Int)
  | pystr (s : String)
  | pylist (xs : List PyObj)
  | pydict (kvs : List (String × PyObj))

/-- Self-terminating encoding of a natural number: its base-128 digits
followed by the end marker 200. -/
def encNat (n : Nat) : List Nat :=
  Nat.digits 128 n ++ [200]

/-- Decoder matching `encNat`: read digits until the marker. -/
def decNat (bs : List Nat) : Option (Nat × List Nat) :=
  match bs.dropWhile (fun b => b < 128) with
  | m :: rest =>
      if m = 200 then some (Nat.ofDigits 128 (bs.takeWhile (fun b => b < 128)), rest)
      else none
  | [] => none

theorem takeWhile_append_stop {p : Nat → Bool} :
    ∀ (l : List Nat) (m : Nat) (rest : List Nat), (∀ x ∈ l, p x = true) → p m = false →
    (l ++ m :: rest).takeWhile p = l ∧ (l ++ m :: rest).dropWhile p = m :: rest := by
  intro l
  induction l with
  | nil =>
      intro m rest _ hm
      constructor
      · simp [List.takeWhile, hm]
      · simp [List.dropWhile, hm]
  | cons a l2 ih =>
      intro m rest hall hm
      have ha : p a = true := hall a (List.mem_cons_self a l2)
      have h2 := ih m rest (fun x hx => hall x (List.mem_cons_of_mem a hx)) hm
      constructor
      · simp only [List.cons_append, List.takeWhile_cons, ha, if_pos]
        rw [h2.1]
      · simp only [List.cons_append, List.dropWhile_cons, ha, if_pos]
        exact h2.2

theorem decNat_encNat (n : Nat) (rest : List Nat) :
    decNat (encNat n ++ rest) = some (n, rest) := by
  have hdig : ∀ x ∈ Nat.digits 128 n, (decide (x < 128)) = true := by
    intro x hx
    simp only [decide_eq_true_eq]
    exact Nat.digits_lt_base (by norm_num) hx
  have hm : (decide ((200 : Nat) < 128)) = false := by decide
  have hsplit := takeWhile_append_stop (Nat.digits 128 n) 200 rest hdig hm
  have harr : encNat n ++ rest = Nat.digits 128 n ++ 200 :: rest := by
    simp [encNat]
  rw [decNat, harr, hsplit.1, hsplit.2]
  simp [Nat.ofDigits_digits]

/-- Character-list body of a string: each character's code point. -/
def encChars : List Char → List Nat
  | [] => []
  | c :: cs => encNat c.toNat ++ encChars cs

/-- Count-directed decoder for characters. -/
def decChars : Nat → List Nat → Option (List Char × List Nat)
  | 0, bs => some ([], bs)
  | n + 1, bs =>
      (decNat bs).bind fun p =>
        (decChars n p.2).map fun q => (Char.ofNat p.1 :: q.1, q.2)

theorem decChars_encChars (l : List Char) (rest : List Nat) :
    decChars l.length (encChars l ++ rest) = some (l, rest) := by
  induction l with
  | nil => rfl
  | cons c cs ih =>
      simp only [encChars, List.length_cons, decChars, List.append_assoc]
      rw [decNat_encNat, Option.some_bind, ih]
      simp [Char.ofNat_toNat]

/-- Length-prefixed string encoding. -/
def encStr (s : String) : List Nat :=
  encNat s.toList.length ++ encChars s.toList

/-- Decoder matching `encStr`. -/
def decStr (bs : List Nat) : Option (String × List Nat) :=
  (decNat bs).bind fun p =>
    (decChars p.1 p.2).map fun q => (String.mk q.1, q.2)

theorem decStr_encStr (s : String) (rest : List Nat) :
    decStr (encStr s ++ rest) = some (s, rest) := by
  simp only [encStr, decStr, List.append_assoc]
  rw [decNat_encNat, Option.some_bind, decChars_encChars]
  rfl

mutual

/-- Modelled from the spec: `pickle.dumps` — the Python standard library
pickling used by `Base64Serializer.dumps` is not part of this
repository; section 4.2 describes it only as "a generic binary object
codec, producing a self-describing byte string" with "symmetric
encode/decode".  This is a tag-length-value byte encoding of the
modelled value space. -/
def pickleDumps : PyObj → List Nat
  | .pynone => [0]
  | .pybool b => [1, if b then 1 else 0]
  | .pyint n => 2 :: (if n < 0 then 1 else 0) :: encNat n.natAbs
  | .pystr s => 3 :: encStr s
  | .pylist xs => 4 :: (encNat xs.length ++ encPList xs)
  | .pydict kvs => 5 :: (encNat kvs.length ++ encPDict kvs)

/-- Concatenated encodings of list elements. -/
def encPList : List PyObj → List Nat
  | [] => []
  | v :: vs => pickleDumps v ++ encPList vs

/-- Concatenated encodings of dict entries (key then value). -/
def encPDict : List (String × PyObj) → List Nat
  | [] => []
  | kv :: kvs => encStr kv.1 ++ pickleDumps kv.2 ++ encPDict kvs

end

mutual

/-- Nesting depth, used as decoder fuel. -/
def depthP : PyObj → Nat
  | .pylist xs => depthList xs + 1
  | .pydict kvs => depthDict kvs + 1
  | _ => 1

def depthList : List PyObj → Nat
  | [] => 0
  | v :: vs => max (depthP v) (depthList vs)

def depthDict : List (String × PyObj) → Nat
  | [] => 0
  | kv :: kvs => max (depthP kv.2) (depthDict kvs)

end

mutual

/-- Modelled from the spec: `pickle.loads`, the decoder matching
`pickleDumps`.  The fuel bounds nesting depth. -/
def decP : Nat → List Nat → Option (PyObj × List Nat)
  | 0, _ => none
  | fuel + 1, bs =>
      match bs with
      | [] => none
      | t :: rest =>
          if t = 0 then some (.pynone, rest)
          else if t = 1 then
            match rest with
            | b :: rest2 => if b ≤ 1 then some (.pybool (b = 1), rest2) else none
            | [] => none
          else if t = 2 then
            match rest with
            | sgn :: rest2 =>
                if sgn ≤ 1 then
                  (decNat rest2).bind fun p =>
                    some (.pyint (if sgn = 1 then -(p.1 : Int) else (p.1 : Int)), p.2)
                else none
            | [] => none
          else if t = 3 then
            (decStr rest).map fun p => (.pystr p.1, p.2)
          else if t = 4 then
            (decNat rest).bind fun p =>
              (decPList fuel p.1 p.2).map fun q => (.pylist q.1, q.2)
          else if t = 5 then
            (decNat rest).bind fun p =>
              (decPDict fuel p.1 p.2).map fun q => (.pydict q.1, q.2)
          else none
  termination_by fuel _ => (fuel, 0)

def decPList : Nat → Nat → List Nat → Option (List PyObj × List Nat)
  | _, 0, bs => some ([], bs)
  | fuel, cnt + 1, bs =>
      (decP fuel bs).bind fun p =>
        (decPList fuel cnt p.2).map fun q => (p.1 :: q.1, q.2)
  termination_by fuel cnt _ => (fuel, cnt + 1)

def decPDict : Nat → Nat → List Nat → Option (List (String × PyObj) × List Nat)
  | _, 0, bs => some ([], bs)
  | fuel, cnt + 1, bs =>
      (decStr bs).bind fun p =>
        (decP fuel p.2).bind fun q =>
          (decPDict fuel cnt q.2).map fun r => ((p.1, q.1) :: r.1, r.2)
  termination_by fuel cnt _ => (fuel, cnt + 1)

end

theorem depthP_pos (v : PyObj) : 1 ≤ depthP v := by
  cases v <;> simp [depthP]

theorem decP_tag0 (fuel : Nat) (rest : List Nat) :
    decP (fuel + 1) (0 :: rest) = some (.pynone, rest) := by
  rw [decP.eq_def]
  norm_num

theorem decP_tag1 (fuel : Nat) (b : Nat) (rest : List Nat) :
    decP (fuel + 1) (1 :: b :: rest) =
      if b ≤ 1 then some (.pybool (b = 1), rest) else none := by
  rw [decP.eq_def]
  norm_num

theorem decP_tag2 (fuel : Nat) (sgn : Nat) (rest : List Nat) :
    decP (fuel + 1) (2 :: sgn :: rest) =
      (if sgn ≤ 1 then
        (decNat rest).bind fun p =>
          some (.pyint (if sgn = 1 then -(p.1 : Int) else (p.1 : Int)), p.2)
      else none) := by
  rw [decP.eq_def]
  norm_num

theorem decP_tag3 (fuel : Nat) (rest : List Nat) :
    decP (fuel + 1) (3 :: rest) = (decStr rest).map fun p => (.pystr p.1, p.2) := by
  rw [decP.eq_def]
  norm_num

theorem decP_tag4 (fuel : Nat) (rest : List Nat) :
    decP (fuel + 1) (4 :: rest) =
      (decNat rest).bind fun p =>
        (decPList fuel p.1 p.2).map fun q => (.pylist q.1, q.2) := by
  rw [decP.eq_def]
  norm_num

theorem decP_tag5 (fuel : Nat) (rest : List Nat) :
    decP (fuel + 1) (5 :: rest) =
      (decNat rest).bind fun p =>
        (decPDict fuel p.1 p.2).map fun q => (.pydict q.1, q.2) := by
  rw [decP.eq_def]
  norm_num

theorem decPList_enc_of (fuel : Nat)
    (hmain : ∀ (v : PyObj) (rest : List Nat), depthP v ≤ fuel →
      decP fuel (pickleDumps v ++ rest) = some (v, rest)) :
    ∀ (l : List PyObj) (rest : List Nat), depthList l ≤ fuel →
    decPList fuel l.length (encPList l ++ rest) = some (l, rest) := by
  intro l
  induction l with
  | nil =>
      intro rest _
      simp [decPList, encPList]
  | cons v vs ih =>
      intro rest h
      rw [depthList] at h
      have hv : depthP v ≤ fuel := le_trans (le_max_left _ _) h
      have hvs : depthList vs ≤ fuel := le_trans (le_max_right _ _) h
      simp only [encPList, List.length_cons, List.append_assoc]
      rw [decPList, hmain v _ hv, Option.some_bind, ih _ hvs]
      rfl

theorem decPDict_enc_of (fuel : Nat)
    (hmain : ∀ (v : PyObj) (rest : List Nat), depthP v ≤ fuel →
      decP fuel (pickleDumps v ++ rest) = some (v, rest)) :
    ∀ (l : List (String × PyObj)) (rest : List Nat), depthDict l ≤ fuel →
    decPDict fuel l.length (encPDict l ++ rest) = some (l, rest) := by
  intro l
  induction l with
  | nil =>
      intro rest _
      simp [decPDict, encPDict]
  | cons kv kvs ih =>
      intro rest h
      rw [depthDict] at h
      have hv : depthP kv.2 ≤ fuel := le_trans (le_max_left _ _) h
      have hvs : depthDict kvs ≤ fuel := le_trans (le_max_right _ _) h
      simp only [encPDict, List.append_assoc]
      rw [List.length_cons, decPDict, decStr_encStr, Option.some_bind,
        hmain kv.2 _ hv, Option.some_bind, ih _ hvs]
      rfl

/-- Decoding inverts the pickle model at any fuel at least the value's
nesting depth. -/
theorem decP_pickleDumps : ∀ (fuel : Nat) (v : PyObj) (rest : List Nat),
    depthP v ≤ fuel → decP fuel (pickleDumps v ++ rest) = some (v, rest) := by
  intro fuel
  induction fuel with
  | zero =>
      intro v rest h
      have := depthP_pos v
      omega
  | succ fuel ih =>
      intro v rest h
      cases v with
      | pynone =>
          simp only [pickleDumps, List.cons_append, List.nil_append]
          exact decP_tag0 fuel rest
      | pybool b =>
          cases b <;>
            simp only [pickleDumps, List.cons_append, List.nil_append] <;>
            rw [decP_tag1] <;> norm_num
      | pyint n =>
          by_cases hn : n < 0
          · simp only [pickleDumps, if_pos hn, List.cons_append]
            rw [decP_tag2, if_pos (by norm_num), decNat_encNat, Option.some_bind]
            have habs : -((n.natAbs : Int)) = n := by omega
            show some (PyObj.pyint (-((n.natAbs : Int))), rest) = some (PyObj.pyint n, rest)
            rw [habs]
          · simp only [pickleDumps, if_neg hn, List.cons_append]
            rw [decP_tag2, if_pos (by norm_num), decNat_encNat, Option.some_bind]
            have habs : ((n.natAbs : Int)) = n := by omega
            show some (PyObj.pyint ((n.natAbs : Int)), rest) = some (PyObj.pyint n, rest)
            rw [habs]
      | pystr s =>
          simp only [pickleDumps, List.cons_append]
          rw [decP_tag3, decStr_encStr]
          rfl
      | pylist xs =>
          rw [depthP] at h
          simp only [pickleDumps, List.cons_append, List.append_assoc]
          rw [decP_tag4, decNat_encNat, Option.some_bind,
            decPList_enc_of fuel ih xs rest (by omega)]
          rfl
      | pydict kvs =>
          rw [depthP] at h
          simp only [pickleDumps, List.cons_append, List.append_assoc]
          rw [decP_tag5, decNat_encNat, Option.some_bind,
            decPDict_enc_of fuel ih kvs rest (by omega)]
          rfl

theorem encNat_lt (n : Nat) : ∀ b ∈ encNat n, b < 256 := by
  intro b hb
  rcases List.mem_append.mp hb with h | h
  · exact lt_trans (Nat.digits_lt_base (by norm_num) h) (by norm_num)
  · simp only [List.mem_singleton] at h
    omega

theorem encChars_lt (l : List Char) : ∀ b ∈ encChars l, b < 256 := by
  induction l with
  | nil => intro b hb; cases hb
  | cons c cs ih =>
      intro b hb
      rcases List.mem_append.mp hb with h | h
      · exact encNat_lt _ b h
      · exact ih b h

theorem encStr_lt (s : String) : ∀ b ∈ encStr s, b < 256 := by
  intro b hb
  rcases List.mem_append.mp hb with h | h
  · exact encNat_lt _ b h
  · exact encChars_lt _ b h

theorem encPList_lt_of (n : Nat)
    (hmain : ∀ v : PyObj, depthP v ≤ n → ∀ b ∈ pickleDumps v, b < 256) :
    ∀ l : List PyObj, depthList l ≤ n → ∀ b ∈ encPList l, b < 256 := by
  intro l
  induction l with
  | nil => intro _ b hb; cases hb
  | cons v vs ih =>
      intro h b hb
      rw [depthList] at h
      rw [encPList] at hb
      rcases List.mem_append.mp hb with h1 | h1
      · exact hmain v (le_trans (le_max_left _ _) h) b h1
      · exact ih (le_trans (le_max_right _ _) h) b h1

theorem encPDict_lt_of (n : Nat)
    (hmain : ∀ v : PyObj, depthP v ≤ n → ∀ b ∈ pickleDumps v, b < 256) :
    ∀ l : List (String × PyObj), depthDict l ≤ n → ∀ b ∈ encPDict l, b < 256 := by
  intro l
  induction l with
  | nil => intro _ b hb; cases hb
  | cons kv kvs ih =>
      intro h b hb
      rw [depthDict] at h
      rw [encPDict, List.append_assoc] at hb
      rcases List.mem_append.mp hb with h1 | h1
      · exact encStr_lt _ b h1
      · rcases List.mem_append.mp h1 with h2 | h2
        · exact hmain kv.2 (le_trans (le_max_left _ _) h) b h2
        · exact ih (le_trans (le_max_right _ _) h) b h2

theorem pickleDumps_lt_aux : ∀ (n : Nat) (v : PyObj), depthP v ≤ n →
    ∀ b ∈ pickleDumps v, b < 256 := by
  intro n
  induction n with
  | zero =>
      intro v h
      have := depthP_pos v
      omega
  | succ n ih =>
      intro v h b hb
      cases v with
      | pynone =>
          simp only [pickleDumps, List.mem_singleton] at hb
          omega
      | pybool bv =>
          simp only [pickleDumps, List.mem_cons, List.mem_singleton] at hb
          rcases hb with h1 | h1
          · omega
          · cases bv <;> simp_all
      | pyint m =>
          simp only [pickleDumps, List.mem_cons] at hb
          rcases hb with h1 | h1
          · omega
          · rcases h1 with h2 | h2
            · by_cases hm : m < 0 <;> simp [hm] at h2 <;> omega
            · exact encNat_lt _ b h2
      | pystr s =>
          simp only [pickleDumps, List.mem_cons] at hb
          rcases hb with h1 | h1
          · omega
          · exact encStr_lt s b h1
      | pylist xs =>
          rw [depthP] at h
          simp only [pickleDumps, List.mem_cons] at hb
          rcases hb with h1 | h1
          · omega
          · rcases List.mem_append.mp h1 with h2 | h2
            · exact encNat_lt _ b h2
            · exact encPList_lt_of n ih xs (by omega) b h2
      | pydict kvs =>
          rw [depthP] at h
          simp only [pickleDumps, List.mem_cons] at hb
          rcases hb with h1 | h1
          · omega
          · rcases List.mem_append.mp h1 with h2 | h2
            · exact encNat_lt _ b h2
            · exact encPDict_lt_of n ih kvs (by omega) b h2

/-- Every byte of the pickle model is a valid byte value. -/
theorem pickleDumps_lt (v : PyObj) : ∀ b ∈ pickleDumps v, b < 256 :=
  pickleDumps_lt_aux (depthP v) v (le_refl _)

theorem encNat_length_pos (n : Nat) : 1 ≤ (encNat n).length := by
  rw [encNat, List.length_append]
  simp

theorem encPList_depth_le_len (n : Nat)
    (hmain : ∀ v : PyObj, depthP v ≤ n → depthP v ≤ (pickleDumps v).length) :
    ∀ l : List PyObj, depthList l ≤ n → depthList l ≤ (encPList l).length := by
  intro l
  induction l with
  | nil => intro _; rw [depthList]; omega
  | cons v vs ih =>
      intro h
      rw [depthList] at h ⊢
      rw [encPList, List.length_append]
      have h1 := hmain v (le_trans (le_max_left _ _) h)
      have h2 := ih (le_trans (le_max_right _ _) h)
      omega

theorem encPDict_depth_le_len (n : Nat)
    (hmain : ∀ v : PyObj, depthP v ≤ n → depthP v ≤ (pickleDumps v).length) :
    ∀ l : List (String × PyObj), depthDict l ≤ n → depthDict l ≤ (encPDict l).length := by
  intro l
  induction l with
  | nil => intro _; rw [depthDict]; omega
  | cons kv kvs ih =>
      intro h
      rw [depthDict] at h ⊢
      rw [encPDict, List.length_append, List.length_append]
      have h1 := hmain kv.2 (le_trans (le_max_left _ _) h)
      have h2 := ih (le_trans (le_max_right _ _) h)
      omega

/-- The encoding is at least as long as the value is deep, so the byte
length provides sufficient decoder fuel. -/
theorem depthP_le_pickle_len : ∀ (n : Nat) (v : PyObj), depthP v ≤ n →
    depthP v ≤ (pickleDumps v).length := by
  intro n
  induction n with
  | zero =>
      intro v h
      have := depthP_pos v
      omega
  | succ n ih =>
      intro v h
      cases v with
      | pynone => simp [pickleDumps, depthP]
      | pybool b => simp [pickleDumps, depthP]
      | pyint m =>
          have hd : depthP (PyObj.pyint m) = 1 := by simp [depthP]
          rw [pickleDumps, hd]
          simp only [List.length_cons]
          omega
      | pystr s =>
          have hd : depthP (PyObj.pystr s) = 1 := by simp [depthP]
          rw [pickleDumps, hd]
          simp only [List.length_cons]
          omega
      | pylist xs =>
          rw [depthP] at h ⊢
          rw [pickleDumps]
          simp only [List.length_cons, List.length_append]
          have h1 := encPList_depth_le_len n ih xs (by omega)
          omega
      | pydict kvs =>
          rw [depthP] at h ⊢
          rw [pickleDumps]
          simp only [List.length_cons, List.length_append]
          have h1 := encPDict_depth_le_len n ih kvs (by omega)
          omega

/-- The RFC 4648 base64 alphabet. -/
def sextetToChar (s : Nat) : Char :=
  if s < 26 then Char.ofNat (65 + s)
  else if s < 52 then Char.ofNat (97 + (s - 26))
  else if s < 62 then Char.ofNat (48 + (s - 52))
  else if s = 62 then '+'
  else '/'

/-- Inverse alphabet lookup. -/
def charToSextet (c : Char) : Option Nat :=
  if 65 ≤ c.toNat ∧ c.toNat ≤ 90 then some (c.toNat - 65)
  else if 97 ≤ c.toNat ∧ c.toNat ≤ 122 then some (c.toNat - 97 + 26)
  else if 48 ≤ c.toNat ∧ c.toNat ≤ 57 then some (c.toNat - 48 + 52)
  else if c = '+' then some 62
  else if c = '/' then some 63
  else none

theorem charToSextet_sextetToChar : ∀ s : Nat, s < 64 →
    charToSextet (sextetToChar s) = some s := by decide

theorem sextetToChar_ne_pad : ∀ s : Nat, s < 64 → sextetToChar s ≠ '=' := by decide

/-- `base64.b64encode` on a byte list: three bytes become four alphabet
characters; one or two trailing bytes are padded with `=`. -/
def b64encodeBytes : List Nat → List Char
  | [] => []
  | [a] => [sextetToChar (a / 4), sextetToChar (a % 4 * 16), '=', '=']
  | [a, b] => [sextetToChar (a / 4), sextetToChar (a % 4 * 16 + b / 16),
      sextetToChar (b % 16 * 4), '=']
  | a :: b :: c :: rest =>
      sextetToChar (a / 4) :: sextetToChar (a % 4 * 16 + b / 16) ::
      sextetToChar (b % 16 * 4 + c / 64) :: sextetToChar (c % 64) ::
      b64encodeBytes rest

/-- `base64.b64decode`: four characters at a time, honouring padding. -/
def b64decodeChars : List Char → Option (List Nat)
  | [] => some []
  | w :: x :: y :: z :: rest =>
      (charToSextet w).bind fun s1 =>
        (charToSextet x).bind fun s2 =>
          if y = '=' then
            if z = '=' ∧ rest = [] ∧ s2 % 16 = 0 then some [s1 * 4 + s2 / 16] else none
          else
            (charToSextet y).bind fun s3 =>
              if z = '=' then
                if rest = [] ∧ s3 % 4 = 0 then
                  some [s1 * 4 + s2 / 16, s2 % 16 * 16 + s3 / 4]
                else none
              else
                (charToSextet z).bind fun s4 =>
                  (b64decodeChars rest).map fun bs =>
                    (s1 * 4 + s2 / 16) :: (s2 % 16 * 16 + s3 / 4) :: (s3 % 4 * 64 + s4) :: bs
  | _ => none

/-- Base64 decoding inverts encoding on byte lists. -/
theorem b64_roundtrip : ∀ (n : Nat) (bs : List Nat), bs.length ≤ n →
    (∀ b ∈ bs, b < 256) → b64decodeChars (b64encodeBytes bs) = some bs := by
  intro n
  induction n with
  | zero =>
      intro bs hlen _
      have hnil : bs = [] := List.eq_nil_of_length_eq_zero (by omega)
      subst hnil
      simp [b64encodeBytes, b64decodeChars]
  | succ n ih =>
      intro bs hlen hlt
      match bs with
      | [] => simp [b64encodeBytes, b64decodeChars]
      | [a] =>
          have ha : a < 256 := hlt a (by simp)
          simp only [b64encodeBytes, b64decodeChars]
          rw [charToSextet_sextetToChar (a / 4) (by omega), Option.some_bind,
            charToSextet_sextetToChar (a % 4 * 16) (by omega), Option.some_bind]
          have e1 : a % 4 * 16 % 16 = 0 := by omega
          simp [e1] <;> omega
      | [a, b] =>
          have ha : a < 256 := hlt a (by simp)
          have hb : b < 256 := hlt b (by simp)
          simp only [b64encodeBytes, b64decodeChars]
          rw [charToSextet_sextetToChar (a / 4) (by omega), Option.some_bind,
            charToSextet_sextetToChar (a % 4 * 16 + b / 16) (by omega), Option.some_bind]
          rw [if_neg (sextetToChar_ne_pad (b % 16 * 4) (by omega))]
          rw [charToSextet_sextetToChar (b % 16 * 4) (by omega), Option.some_bind]
          have e1 : b % 16 * 4 % 4 = 0 := by omega
          simp [e1] <;> omega
      | a :: b :: c :: rest =>
          have ha : a < 256 := hlt a (by simp)
          have hb : b < 256 := hlt b (by simp)
          have hc : c < 256 := hlt c (by simp)
          simp only [b64encodeBytes, b64decodeChars]
          rw [charToSextet_sextetToChar (a / 4) (by omega), Option.some_bind,
            charToSextet_sextetToChar (a % 4 * 16 + b / 16) (by omega), Option.some_bind]
          rw [if_neg (sextetToChar_ne_pad (b % 16 * 4 + c / 64) (by omega))]
          rw [charToSextet_sextetToChar (b % 16 * 4 + c / 64) (by omega), Option.some_bind]
          rw [if_neg (sextetToChar_ne_pad (c % 64) (by omega))]
          rw [charToSextet_sextetToChar (c % 64) (by omega), Option.some_bind]
          have hrest : b64decodeChars (b64encodeBytes rest) = some rest := by
            apply ih rest (by simp at hlen; omega)
            intro x hx
            exact hlt x (by simp [hx])
          rw [hrest]
          simp <;> omega

/-- `Base64Serializer.dumps`: `base64.b64encode(pickle.dumps(obj)).decode("utf-8")`
(dynamodb_session_saver.py 42-44), with `pickle.dumps` modelled by `pickleDumps`. -/
def dumps (obj : PyObj) : String :=
  String.mk (b64encodeBytes (pickleDumps obj))

/-- `Base64Serializer.loads`: `pickle.loads(base64.b64decode(data.encode("utf-8")))`
(dynamodb_session_saver.py 46-48), with `pickle.loads` modelled by `decP` run with
enough fuel; a malformed payload yields `none`. -/
def loads (data : String) : Option PyObj :=
  (b64decodeChars data.toList).bind fun bs =>
    match decP (bs.length + 1) bs with
    | some (v, _) => some v
    | none => none

/-- C6: for every orchestration state value — arbitrary nesting of None, booleans,
integers, strings, lists and string-keyed dicts — decoding the codec's encoding
reproduces a value equal to the original: `loads` is a left inverse of `dumps`. -/
theorem serializer_roundtrip (v : PyObj) : loads (dumps v) = some v := by
  have hbytes : ∀ b ∈ pickleDumps v, b < 256 := pickleDumps_lt v
  have hb64 : b64decodeChars (b64encodeBytes (pickleDumps v)) = some (pickleDumps v) :=
    b64_roundtrip (pickleDumps v).length (pickleDumps v) (le_refl _) hbytes
  have hdec : decP ((pickleDumps v).length + 1) (pickleDumps v) = some (v, []) := by
    have h1 : depthP v ≤ (pickleDumps v).length + 1 :=
      le_trans (depthP_le_pickle_len (depthP v) v (le_refl _)) (Nat.le_succ _)
    have h2 := decP_pickleDumps ((pickleDumps v).length + 1) v [] h1
    rwa [List.append_nil] at h2
  simp only [loads, dumps]
  have hlist : (String.mk (b64encodeBytes (pickleDumps v))).toList
      = b64encodeBytes (pickleDumps v) := rfl
  rw [hlist, hb64, Option.some_bind, hdec]

/-- Witness: the round trip at a concrete nested value. -/
theorem serializer_roundtrip_witness :
    loads (dumps (PyObj.pylist [PyObj.pyint 3, PyObj.pystr "a",
      PyObj.pydict [("k", PyObj.pybool true)]])) =
      some (PyObj.pylist [PyObj.pyint 3, PyObj.pystr "a",
      PyObj.pydict [("k", PyObj.pybool true)]]) :=
  serializer_roundtrip (PyObj.pylist [PyObj.pyint 3, PyObj.pystr "a",
      PyObj.pydict [("k", PyObj.pybool true)]])

end MultiAgent
